import Mathlib

/-!
Verification of the middleware service framework (`middlewared/service.py`):
the generic Config/CRUD service contract, the TDB-wrapped (clustered)
config/CRUD services with health gating and version reconciliation, the
dependency-guarded deletion, and the job lock-queue admission model.

Python values are embedded as an inductive `PyVal`; fallible calls return
`Except`; stateful code is embedded as explicit state passing, emitting a
trace of the externally visible calls (datastore operations, hook
invocations, event emissions, log lines) so that ordering properties can be
stated.
-/

namespace Middleware

/-- Shallow embedding of the Python values that flow through the service
layer (JSON-like data: dicts, lists, scalars). -/
inductive PyVal where
  | none : PyVal
  | bool : Bool → PyVal
  | int : Int → PyVal
  | str : String → PyVal
  | list : List PyVal → PyVal
  | dict : List (String × PyVal) → PyVal
deriving Repr, Inhabited

namespace PyVal

/-- Python `isinstance(rv, dict) and 'id' in rv`: membership of a key in a
dict value. -/
def isDictWithKey (v : PyVal) (key : String) : Bool :=
  match v with
  | .dict fields => fields.any (fun f => f.1 == key)
  | _ => false

/-- Python `rv['id']`-style lookup (first binding wins, as in a dict built
from a single key). Returns `PyVal.none` when absent; on the paths we model
the key is always checked first. -/
def get (v : PyVal) (key : String) : PyVal :=
  match v with
  | .dict fields =>
    match fields.find? (fun f => f.1 == key) with
    | some f => f.2
    | Option.none => .none
  | _ => .none

end PyVal

/-- Python `str()` on the values that appear inside the f-strings we model
(error messages interpolate ids and names). -/
def pyStr : PyVal → String
  | .none => "None"
  | .bool b => if b then "True" else "False"
  | .int n => toString n
  | .str s => s
  | .list _ => "[...]"
  | .dict _ => "{...}"

/-- Errors surfacing from the service layer: `CallError` (message, errno,
structured extra payload), `InstanceNotFound`, and exceptions propagated
from hooks or backend calls. -/
inductive SvcError where
  | callError (msg : String) (errno : Nat) (extra : List PyVal) : SvcError
  | instanceNotFound (msg : String) : SvcError
  | hookError (msg : String) : SvcError
  | backendError (msg : String) : SvcError
deriving Repr

/-! ## CRUD create/update/delete: hook and event sequencing

Embedding of `CRUDService.create` / `CRUDService.update` /
`CRUDService.delete` (`service.py` lines 938-970).  The `do_*`
implementation is a state transformer over the backing datastore (it may
mutate it and either return a value or raise); the `post_*` hook is a
fallible observer.  Each operation returns the datastore state after the
call, the trace of externally visible steps in the order they happen, and
the call's outcome. -/

/-- One externally visible step of a CRUD mutation call, in program order. -/
inductive CrudEv where
  /-- invocation of the `do_create`/`do_update`/`do_delete` implementation -/
  | callDo (name : String) : CrudEv
  /-- `middleware.call_hook` of the `post_*` notification hook -/
  | callHook (name : String) : CrudEv
  /-- `middleware.send_event(namespace.query, etype, ...)` -/
  | sendEvent (etype : String) (id : PyVal) : CrudEv
deriving Repr

/-- Abstract datastore state (the backing store contents). -/
abbrev DS := List PyVal

/-- Outcome of a `do_*` implementation: the datastore state it leaves
behind (the mutation commits even if a later step fails) and its
result or exception. -/
abbrev DoImpl := DS → DS × Except SvcError PyVal

/-- A `post_*` hook: observes the `do_*` result, may raise. -/
abbrev Hook := PyVal → Except SvcError Unit

/-- `CRUDService.create` (service.py:938-947): run `do_create`; on success
await the `post_create` hook; only then, if `event_send` is configured and
the result is a dict carrying an `id`, emit the `ADDED` event. -/
def CRUDService.create (eventSend : Bool) (doCreate : DoImpl) (hook : Hook)
    (ds : DS) : DS × List CrudEv × Except SvcError PyVal :=
  let (ds1, r) := doCreate ds
  match r with
  | .error e => (ds1, [.callDo "do_create"], .error e)
  | .ok rv =>
    match hook rv with
    | .error e => (ds1, [.callDo "do_create", .callHook "post_create"], .error e)
    | .ok _ =>
      let evs :=
        if eventSend && rv.isDictWithKey "id" then
          [CrudEv.sendEvent "ADDED" (rv.get "id")]
        else []
      (ds1, [.callDo "do_create", .callHook "post_create"] ++ evs, .ok rv)

/-- `CRUDService.update` (service.py:949-958): identical sequencing with
`do_update`, `post_update` and the `CHANGED` event. -/
def CRUDService.update (eventSend : Bool) (doUpdate : DoImpl) (hook : Hook)
    (ds : DS) : DS × List CrudEv × Except SvcError PyVal :=
  let (ds1, r) := doUpdate ds
  match r with
  | .error e => (ds1, [.callDo "do_update"], .error e)
  | .ok rv =>
    match hook rv with
    | .error e => (ds1, [.callDo "do_update", .callHook "post_update"], .error e)
    | .ok _ =>
      let evs :=
        if eventSend && rv.isDictWithKey "id" then
          [CrudEv.sendEvent "CHANGED" (rv.get "id")]
        else []
      (ds1, [.callDo "do_update", .callHook "post_update"] ++ evs, .ok rv)

/-- `CRUDService.delete` (service.py:960-970): run `do_delete`; on success
await the `post_delete` hook; only then, if `event_send` is configured,
emit the (deprecated) cleared `CHANGED` event followed by `REMOVED`. -/
def CRUDService.delete (eventSend : Bool) (id : PyVal) (doDelete : DoImpl)
    (hook : Hook) (ds : DS) : DS × List CrudEv × Except SvcError PyVal :=
  let (ds1, r) := doDelete ds
  match r with
  | .error e => (ds1, [.callDo "do_delete"], .error e)
  | .ok rv =>
    match hook rv with
    | .error e => (ds1, [.callDo "do_delete", .callHook "post_delete"], .error e)
    | .ok _ =>
      let evs :=
        if eventSend then
          [CrudEv.sendEvent "CHANGED" id, CrudEv.sendEvent "REMOVED" id]
        else []
      (ds1, [.callDo "do_delete", .callHook "post_delete"] ++ evs, .ok rv)

/-- Is a trace step an event emission? -/
def CrudEv.isSend : CrudEv → Bool
  | .sendEvent _ _ => true
  | _ => false

/-- The sequencing contract of one CRUD mutation call `out` against its
`do_*` implementation and `post_*` hook:
1. the datastore state after the call is exactly the state the `do_*`
   implementation left (a later hook failure does not undo the mutation);
2. the first step of the trace is the `do_*` invocation;
3. the `post_*` hook is invoked iff `do_*` succeeded;
4. if any change notification is emitted, then `do_*` succeeded, the hook
   returned without error, the call returns the `do_*` result, and the
   emissions come after both calls and carry only the allowed event types;
5. if the hook raises, its error propagates to the caller and no change
   notification is emitted. -/
def MutationSequenced (doImpl : DoImpl) (hook : Hook) (ds : DS)
    (doName hookName : String) (etypes : List String)
    (out : DS × List CrudEv × Except SvcError PyVal) : Prop :=
  out.1 = (doImpl ds).1 ∧
  out.2.1.head? = some (.callDo doName) ∧
  ((CrudEv.callHook hookName ∈ out.2.1) ↔ ∃ rv, (doImpl ds).2 = .ok rv) ∧
  ((∃ ev ∈ out.2.1, ev.isSend = true) →
    ∃ rv, (doImpl ds).2 = .ok rv ∧ hook rv = .ok () ∧ out.2.2 = .ok rv ∧
      ∃ evs, out.2.1 = [.callDo doName, .callHook hookName] ++ evs ∧
        ∀ ev ∈ evs, ∃ t ∈ etypes, ∃ i, ev = CrudEv.sendEvent t i) ∧
  (∀ rv e, (doImpl ds).2 = .ok rv → hook rv = .error e →
    out.2.2 = .error e ∧ ∀ ev ∈ out.2.1, ev.isSend = false)

/-- **C1.** For every CRUD service (with event sending enabled or not),
each of `create`/`update`/`delete` first invokes the corresponding `do_*`
implementation, awaits the matching `post_create`/`post_update`/
`post_delete` hook only if it succeeded, and emits the
`ADDED`/`CHANGED`/`REMOVED` change notification only after that post-hook
returns without error; if the post-hook raises, the notification is not
emitted and the error propagates to the caller, but the mutation performed
by `do_*` is not undone. -/
theorem C1_crud_mutation_hook_event_sequencing
    (eventSend : Bool) (doC doU doD : DoImpl) (hkC hkU hkD : Hook)
    (ds : DS) (id : PyVal) :
    MutationSequenced doC hkC ds "do_create" "post_create" ["ADDED"]
      (CRUDService.create eventSend doC hkC ds) ∧
    MutationSequenced doU hkU ds "do_update" "post_update" ["CHANGED"]
      (CRUDService.update eventSend doU hkU ds) ∧
    MutationSequenced doD hkD ds "do_delete" "post_delete" ["CHANGED", "REMOVED"]
      (CRUDService.delete eventSend id doD hkD ds) := by
  refine ⟨?_, ?_, ?_⟩
  · rcases hdo : doC ds with ⟨ds1, r⟩
    cases r with
    | error e =>
      simp [MutationSequenced, CRUDService.create, hdo, CrudEv.isSend]
    | ok rv =>
      cases hhk : hkC rv with
      | error e =>
        simp [MutationSequenced, CRUDService.create, hdo, hhk, CrudEv.isSend]
        rintro rv' e' rfl h
        rw [hhk] at h
        exact Except.error.inj h
      | ok u =>
        by_cases hsend : (eventSend && rv.isDictWithKey "id") = true <;>
          simp [MutationSequenced, CRUDService.create, hdo, hhk, hsend,
            CrudEv.isSend] <;>
          (rintro rv' e' rfl h; rw [hhk] at h; simp at h)
  · rcases hdo : doU ds with ⟨ds1, r⟩
    cases r with
    | error e =>
      simp [MutationSequenced, CRUDService.update, hdo, CrudEv.isSend]
    | ok rv =>
      cases hhk : hkU rv with
      | error e =>
        simp [MutationSequenced, CRUDService.update, hdo, hhk, CrudEv.isSend]
        rintro rv' e' rfl h
        rw [hhk] at h
        exact Except.error.inj h
      | ok u =>
        by_cases hsend : (eventSend && rv.isDictWithKey "id") = true <;>
          simp [MutationSequenced, CRUDService.update, hdo, hhk, hsend,
            CrudEv.isSend] <;>
          (rintro rv' e' rfl h; rw [hhk] at h; simp at h)
  · rcases hdo : doD ds with ⟨ds1, r⟩
    cases r with
    | error e =>
      simp [MutationSequenced, CRUDService.delete, hdo, CrudEv.isSend]
    | ok rv =>
      cases hhk : hkD rv with
      | error e =>
        simp [MutationSequenced, CRUDService.delete, hdo, hhk, CrudEv.isSend]
        rintro rv' e' rfl h
        rw [hhk] at h
        exact Except.error.inj h
      | ok u =>
        cases eventSend <;>
          simp [MutationSequenced, CRUDService.delete, hdo, hhk, CrudEv.isSend] <;>
          (rintro rv' e' rfl h; rw [hhk] at h; simp at h)

/-! ## CRUD query and get_instance

Embedding of `CRUDService.query` (service.py:907-936) and
`CRUDService.get_instance` (service.py:972-996).  The datastore boundary
(`datastore.query`) and the in-process `filter_list` helper (from
`middlewared.utils`, outside this source tree) are oracles passed in as
function parameters; the embedding records the datastore calls issued so
that the filtering policy can be stated. -/

/-- One `[field, op, value]` query filter. -/
inductive Filt where
  | cmp (field : String) (op : String) (value : PyVal) : Filt
deriving Repr

abbrev Filters := List Filt

/-- The query options dict, after schema defaults are filled in
(`query-options`): `force_sql_filters`, `get`, `count`, plus the
`extend`/`extend_context`/`prefix` entries that `get_options` installs
from the service `_config`. -/
structure QOptions where
  force_sql_filters : Bool := false
  get : Bool := false
  count : Bool := false
  extend : Option String := Option.none
  extendContext : Option String := Option.none
  datastorePrefix : String := ""
deriving Repr

/-- Static per-service configuration (`service_config`, service.py:390-425),
restricted to the attributes the modelled operations read. -/
structure ServiceConfig where
  datastore : Option String := Option.none
  datastore_extend : Option String := Option.none
  datastore_extend_context : Option String := Option.none
  datastore_primary_key : String := "id"
  datastorePrefix : String := ""
  svcNamespace : String := ""
  verbose_name : String := ""
  event_send : Bool := true
deriving Repr

/-- `CRUDService.get_options` (service.py:900-905): install the service's
extend / extend_context / prefix into the caller's options. -/
def CRUDService.get_options (cfg : ServiceConfig) (options : QOptions) :
    QOptions :=
  { options with
    extend := cfg.datastore_extend
    extendContext := cfg.datastore_extend_context
    datastorePrefix := cfg.datastorePrefix }

/-- A call issued to the `datastore.query` boundary. -/
structure DSCall where
  table : String
  filters : Filters
  options : QOptions

/-- `CRUDService.query` (service.py:907-936).  `dsQuery` is the
`datastore.query` boundary, `filterList` is the in-process
`filter_list` helper; the returned list records the datastore calls
issued.  With an extend transform registered and `force_sql_filters`
unset, the datastore is queried with no filters and with the `count`/`get`
options stripped, and the caller's filters/options are applied in-process
to the result; otherwise the caller's filters are pushed down. -/
def CRUDService.query (cfg : ServiceConfig)
    (dsQuery : String → Filters → QOptions → PyVal)
    (filterList : PyVal → Filters → QOptions → PyVal)
    (filters : Filters) (options : QOptions) :
    Except SvcError PyVal × List DSCall :=
  match cfg.datastore with
  | Option.none =>
    (.error (.backendError (cfg.svcNamespace ++
      ".query must be implemented or a datastore Config attribute provided.")),
     [])
  | some table =>
    let options := CRUDService.get_options cfg options
    if !options.force_sql_filters && options.extend.isSome then
      let dsOptions := { options with count := false, get := false }
      let result := dsQuery table [] dsOptions
      (.ok (filterList result filters options), [⟨table, [], dsOptions⟩])
    else
      (.ok (dsQuery table filters options), [⟨table, filters, options⟩])

/-- **C4.** For every CRUD service with a backing datastore: if the service
has a registered extend transform and the caller has not set
`force_sql_filters`, `query` issues exactly one datastore call, with no
filters and with the `get`/`count` options stripped (the extend transform
still set, so the datastore applies it to each record), and returns the
caller's filters and options applied in-process (`filter_list`) to the
transformed records; otherwise the caller's filters are passed directly to
the datastore. -/
theorem C4_crud_query_filtering_policy (cfg : ServiceConfig)
    (dsQuery : String → Filters → QOptions → PyVal)
    (filterList : PyVal → Filters → QOptions → PyVal)
    (filters : Filters) (options : QOptions) (table : String)
    (hds : cfg.datastore = some table) :
    (cfg.datastore_extend.isSome → options.force_sql_filters = false →
      CRUDService.query cfg dsQuery filterList filters options =
        (.ok (filterList
          (dsQuery table []
            { CRUDService.get_options cfg options with
              count := false, get := false })
          filters (CRUDService.get_options cfg options)),
         [⟨table, [],
           { CRUDService.get_options cfg options with
             count := false, get := false }⟩]) ∧
      ({ CRUDService.get_options cfg options with
         count := false, get := false } : QOptions).extend =
        cfg.datastore_extend) ∧
    (options.force_sql_filters = true ∨ cfg.datastore_extend = Option.none →
      CRUDService.query cfg dsQuery filterList filters options =
        (.ok (dsQuery table filters (CRUDService.get_options cfg options)),
         [⟨table, filters, CRUDService.get_options cfg options⟩])) := by
  refine ⟨fun hext hforce => ⟨?_, rfl⟩, fun hcase => ?_⟩
  · have hcond : (!(CRUDService.get_options cfg options).force_sql_filters &&
        (CRUDService.get_options cfg options).extend.isSome) = true := by
      simp [CRUDService.get_options, hforce, hext]
    simp only [CRUDService.query, hds, hcond, if_true]
  · have hcond : (!(CRUDService.get_options cfg options).force_sql_filters &&
        (CRUDService.get_options cfg options).extend.isSome) = false := by
      rcases hcase with hforce | hext
      · simp [CRUDService.get_options, hforce]
      · simp [CRUDService.get_options, hext]
    simp only [CRUDService.query, hds, hcond, Bool.false_eq_true, if_false]

/-- Witness for C4 at a concrete service configuration: a store named
`tbl` with extend transform `svc.extend` and default caller options takes
the in-process filtering path, issuing the one unfiltered datastore call
with `get`/`count` stripped. -/
theorem C4_crud_query_filtering_policy_witness :
    ({ datastore := some "tbl", datastore_extend := some "svc.extend" :
       ServiceConfig }.datastore = some "tbl") ∧
    CRUDService.query
      { datastore := some "tbl", datastore_extend := some "svc.extend" }
      (fun _ _ _ => PyVal.list []) (fun r _ _ => r) [] {} =
      (.ok (PyVal.list []),
       [⟨"tbl", [],
         { force_sql_filters := false, get := false, count := false,
           extend := some "svc.extend", extendContext := Option.none,
           datastorePrefix := "" }⟩]) := by
  refine ⟨rfl, ?_⟩
  exact ((C4_crud_query_filtering_policy
    { datastore := some "tbl", datastore_extend := some "svc.extend" }
    (fun _ _ _ => PyVal.list []) (fun r _ _ => r) [] {} "tbl" rfl).1
    (by simp) rfl).1

/-- `CRUDService.get_instance` (service.py:972-996): query the service's
own `query` method with the single filter `[datastore_primary_key, '=',
id]`; raise `InstanceNotFound` naming the service's verbose name and the
id when the result is empty, otherwise return the first record.  `query`
is the service's registered query method (for a datastore-backed store it
runs the extend pipeline, cf. `CRUDService.query`); the issued filter list
is returned alongside the outcome. -/
def CRUDService.get_instance (cfg : ServiceConfig)
    (query : Filters → QOptions → List PyVal) (id : PyVal)
    (options : QOptions) : Filters × Except SvcError PyVal :=
  let f : Filters := [.cmp cfg.datastore_primary_key "=" id]
  let instanceL := query f options
  (f,
   match instanceL with
   | [] => .error (.instanceNotFound
       (cfg.verbose_name ++ " " ++ pyStr id ++ " does not exist"))
   | x :: _ => .ok x)

/-- **C8.** For every CRUD service and every id: `get_instance(id)` queries
the store by its configured primary-key field equal to `id`; if the result
is empty it fails with a not-found error naming the service's verbose name
and the id, and otherwise it returns the first matching record (as
produced by the service's query method, i.e. after the store's extend
pipeline). -/
theorem C8_get_instance_by_primary_key (cfg : ServiceConfig)
    (query : Filters → QOptions → List PyVal) (id : PyVal)
    (options : QOptions) :
    (CRUDService.get_instance cfg query id options).1 =
      [.cmp cfg.datastore_primary_key "=" id] ∧
    (query [.cmp cfg.datastore_primary_key "=" id] options = [] →
      (CRUDService.get_instance cfg query id options).2 =
        .error (.instanceNotFound
          (cfg.verbose_name ++ " " ++ pyStr id ++ " does not exist"))) ∧
    (∀ x xs, query [.cmp cfg.datastore_primary_key "=" id] options = x :: xs →
      (CRUDService.get_instance cfg query id options).2 = .ok x) := by
  refine ⟨rfl, fun hempty => ?_, fun x xs hcons => ?_⟩
  · simp only [CRUDService.get_instance, hempty]
  · simp only [CRUDService.get_instance, hcons]

/-- A concrete one-record query oracle used by the C8 witness. -/
def diskQueryOracle : Filters → QOptions → List PyVal := fun f _ =>
  match f with
  | [Filt.cmp "id" "=" (PyVal.int 1)] => [PyVal.dict [("id", PyVal.int 1)]]
  | _ => []

/-- Witness for C8: a service with verbose name `Disk`, primary key `id`
and a one-record store; a missing id yields the not-found error naming
both the verbose name and the id. -/
theorem C8_get_instance_by_primary_key_witness :
    (diskQueryOracle [.cmp "id" "=" (PyVal.int 2)] {} = []) ∧
    (CRUDService.get_instance { verbose_name := "Disk" } diskQueryOracle
      (PyVal.int 2) {}).2 =
      .error (.instanceNotFound "Disk 2 does not exist") := by
  refine ⟨rfl, ?_⟩
  exact (C8_get_instance_by_primary_key { verbose_name := "Disk" }
    diskQueryOracle (PyVal.int 2) {}).2.1 rfl

/-! ## Dependency-guarded deletion

Embedding of `CRUDService.check_dependencies` (service.py:1022-1034) and
`CRUDService.get_dependencies` (service.py:1036-1091).  The registered
services table (`core.get_services`), the back-reference enumeration
(`datastore.get_backrefs`) and the datastore/service queries are oracles;
the dependencies dict is an association list with Python-dict upsert
semantics (assignment to an existing key keeps its position). -/

/-- The `type` field of a registered service as reported by
`core.get_services`: `'config'`, `'crud'` or plain `'service'`. -/
inductive SvcType where
  | config : SvcType
  | crud : SvcType
  | plain : SvcType
deriving Repr, DecidableEq

/-- A registered service holding a backing datastore, as looked up in
`get_dependencies` (name, type, and its `datastore_prefix`). -/
structure RefSvc where
  name : String
  type : SvcType
  datastorePrefix : String
deriving Repr

/-- The `data` part of one dependency entry: either the raw/requeried
referencing objects, or (for a config service) the referencing column. -/
inductive DepData where
  | objects (objs : List PyVal) : DepData
  | key (col : String) : DepData
deriving Repr

/-- One entry of the dependencies dict built by `get_dependencies`. -/
structure Dependency where
  datastore : String
  service : Option String
  data : DepData
deriving Repr

/-- `services[datastore]` lookup in the dict built from
`core.get_services`. -/
def lookupSvc (services : List (String × RefSvc)) (ds : String) :
    Option RefSvc :=
  (services.find? (fun p => p.1 == ds)).map Prod.snd

/-- `query_col` computation (service.py:1068-1072): strip the service's
`datastore_prefix` from the foreign-key column when it applies. -/
def stripColPrefix (col pre : String) : String :=
  if pre ≠ "" ∧ col.startsWith pre then (col.drop pre.length) else col

/-- The dependency entry produced for one `(datastore, fk)` back-reference
(the body of the loop in service.py:1047-1089), or `none` when the store
or its service is ignored or no referencing rows exist. -/
def depEntry (ignored : List String) (services : List (String × RefSvc))
    (dsQueryRef : String → String → List PyVal)
    (svcQuery : String → List PyVal → List PyVal)
    (datastore fk : String) : Option Dependency :=
  if datastore ∈ ignored then Option.none
  else
    match lookupSvc services datastore with
    | some svc =>
      if svc.name ∈ ignored then Option.none
      else if (dsQueryRef datastore fk).isEmpty then Option.none
      else
        some
          { datastore := datastore
            service := some svc.name
            data :=
              match svc.type with
              | .config => .key (stripColPrefix fk svc.datastorePrefix)
              | .crud => .objects (svcQuery svc.name (dsQueryRef datastore fk))
              | .plain => .objects (dsQueryRef datastore fk) }
    | Option.none =>
      if (dsQueryRef datastore fk).isEmpty then Option.none
      else
        some { datastore := datastore, service := Option.none,
               data := .objects (dsQueryRef datastore fk) }

/-- Python-dict assignment `dependencies[datastore] = v`: update in place
when the key exists (keeping its position), else append. -/
def dictUpsert (m : List (String × Dependency)) (k : String)
    (v : Dependency) : List (String × Dependency) :=
  if m.any (fun p => p.1 == k) then
    m.map (fun p => if p.1 == k then (k, v) else p)
  else m ++ [(k, v)]

/-- The `get_dependencies` loop over the back-references, accumulating the
dependencies dict. -/
def getDependenciesAux (ignored : List String)
    (services : List (String × RefSvc))
    (dsQueryRef : String → String → List PyVal)
    (svcQuery : String → List PyVal → List PyVal) :
    List (String × String) → List (String × Dependency) →
    List (String × Dependency)
  | [], acc => acc
  | (datastore, fk) :: rest, acc =>
    match depEntry ignored services dsQueryRef svcQuery datastore fk with
    | Option.none =>
      getDependenciesAux ignored services dsQueryRef svcQuery rest acc
    | some d =>
      getDependenciesAux ignored services dsQueryRef svcQuery rest
        (dictUpsert acc datastore d)

/-- `CRUDService.get_dependencies` (service.py:1036-1091). -/
def CRUDService.get_dependencies (ignored : List String)
    (services : List (String × RefSvc))
    (dsQueryRef : String → String → List PyVal)
    (svcQuery : String → List PyVal → List PyVal)
    (backrefs : List (String × String)) : List (String × Dependency) :=
  getDependenciesAux ignored services dsQueryRef svcQuery backrefs []

/-- The name under which a dependency is reported: its service name when
it has one, else its datastore name (`key = 'service' if
dependency['service'] else 'datastore'`). -/
def depDisplayName (d : Dependency) : String :=
  match d.service with
  | some n => n
  | Option.none => d.datastore

/-- `key.capitalize()` of the reporting key. -/
def depKindCap (d : Dependency) : String :=
  match d.service with
  | some _ => "Service"
  | Option.none => "Datastore"

/-- One line of the dependency-conflict message:
`f'{index + 1}) {dependency[key]!r} {key.capitalize()}\n'`. -/
def depLine (i : Nat) (d : Dependency) : String :=
  toString (i + 1) ++ ") '" ++ depDisplayName d ++ "' " ++ depKindCap d ++ "\n"

/-- The `dep_err +=` loop body: the concatenated lines enumerated from
index `i`. -/
def depMsgBody : Nat → List Dependency → String
  | _, [] => ""
  | i, d :: rest => depLine i d ++ depMsgBody (i + 1) rest

/-- The full `dep_err` message of `check_dependencies`. -/
def depErrMsg (deps : List Dependency) : String :=
  "This object is being used by following service(s):\n" ++ depMsgBody 0 deps

/-- The `CallError` raised by `check_dependencies`: message, `EBUSY`
(errno 16), and the structured `{'dependencies': [...]}` extra. -/
structure DepError where
  msg : String
  errno : Nat
  dependencies : List Dependency
deriving Repr

/-- `CRUDService.check_dependencies` (service.py:1022-1034): raise the
EBUSY `CallError` when any dependency exists, succeed otherwise. -/
def CRUDService.check_dependencies (ignored : List String)
    (services : List (String × RefSvc))
    (dsQueryRef : String → String → List PyVal)
    (svcQuery : String → List PyVal → List PyVal)
    (backrefs : List (String × String)) : Except DepError Unit :=
  if (CRUDService.get_dependencies ignored services dsQueryRef
      svcQuery backrefs).isEmpty then .ok ()
  else
    .error ⟨depErrMsg ((CRUDService.get_dependencies ignored services
        dsQueryRef svcQuery backrefs).map Prod.snd), 16,
      (CRUDService.get_dependencies ignored services dsQueryRef svcQuery
        backrefs).map Prod.snd⟩

/-- A successful `depEntry` is for an unignored datastore and (when
present) an unignored service, and records its own datastore. -/
theorem depEntry_unignored {ignored services dsQueryRef svcQuery ds fk d}
    (h : depEntry ignored services dsQueryRef svcQuery ds fk = some d) :
    ds ∉ ignored ∧ (∀ n, d.service = some n → n ∉ ignored) ∧
      d.datastore = ds := by
  unfold depEntry at h
  by_cases hig : ds ∈ ignored
  · rw [if_pos hig] at h
    cases h
  · rw [if_neg hig] at h
    rcases hsvc : lookupSvc services ds with _ | svc <;>
      simp only [hsvc] at h
    · by_cases hobj : (dsQueryRef ds fk).isEmpty = true <;>
        simp only [hobj, if_true, if_false, Bool.false_eq_true,
          reduceCtorEq] at h
      cases h
      exact ⟨hig, by simp, rfl⟩
    · by_cases hname : svc.name ∈ ignored
      · rw [if_pos hname] at h
        cases h
      · rw [if_neg hname] at h
        by_cases hobj : (dsQueryRef ds fk).isEmpty = true <;>
          simp only [hobj, if_true, if_false, Bool.false_eq_true,
            reduceCtorEq] at h
        cases h
        refine ⟨hig, ?_, rfl⟩
        rintro n hn
        simp only [Option.some.injEq] at hn
        subst hn
        exact hname

/-- `dictUpsert` preserves a per-entry predicate. -/
theorem dictUpsert_forall {P : String × Dependency → Prop} {m k v}
    (hm : ∀ p ∈ m, P p) (hv : P (k, v)) :
    ∀ p ∈ dictUpsert m k v, P p := by
  intro p hp
  unfold dictUpsert at hp
  split_ifs at hp with hex
  · rcases List.mem_map.mp hp with ⟨q, hq, hfq⟩
    by_cases hk : (q.1 == k) = true
    · rw [if_pos hk] at hfq
      exact hfq ▸ hv
    · rw [if_neg hk] at hfq
      exact hfq ▸ hm q hq
  · rcases List.mem_append.mp hp with hmem | hmem
    · exact hm p hmem
    · rw [List.mem_singleton.mp hmem]
      exact hv

/-- The accumulator invariant of the `get_dependencies` loop: entries are
unignored-consistent. -/
theorem getDependenciesAux_unignored {ignored services dsQueryRef svcQuery}
    (brs : List (String × String)) (acc : List (String × Dependency))
    (hacc : ∀ p ∈ acc, p.1 ∉ ignored ∧
      (∀ n, (p.2).service = some n → n ∉ ignored)) :
    ∀ p ∈ getDependenciesAux ignored services dsQueryRef svcQuery brs acc,
      p.1 ∉ ignored ∧ (∀ n, (p.2).service = some n → n ∉ ignored) := by
  induction brs generalizing acc with
  | nil => exact hacc
  | cons br rest ih =>
    rcases br with ⟨ds, fk⟩
    rcases hent : depEntry ignored services dsQueryRef svcQuery ds fk
      with _ | d <;> simp only [getDependenciesAux, hent]
    · exact ih acc hacc
    · refine ih _ (dictUpsert_forall hacc ?_)
      rcases depEntry_unignored hent with ⟨h1, h2, _⟩
      exact ⟨h1, h2⟩

/-- `dictUpsert` preserves existing keys and establishes the new one. -/
theorem dictUpsert_keys {m : List (String × Dependency)} {k v} :
    (k ∈ (dictUpsert m k v).map Prod.fst) ∧
    ∀ k', k' ∈ m.map Prod.fst → k' ∈ (dictUpsert m k v).map Prod.fst := by
  unfold dictUpsert
  split_ifs with hex
  · constructor
    · rcases List.any_eq_true.mp hex with ⟨q, hq, hqk⟩
      refine List.mem_map.mpr ⟨(k, v), ?_, rfl⟩
      refine List.mem_map.mpr ⟨q, hq, ?_⟩
      rw [if_pos hqk]
    · intro k' hk'
      rcases List.mem_map.mp hk' with ⟨q, hq, hfq⟩
      by_cases hqk : (q.1 == k) = true
      · refine List.mem_map.mpr ⟨(k, v), List.mem_map.mpr ⟨q, hq, ?_⟩, ?_⟩
        · rw [if_pos hqk]
        · have : q.1 = k := by simpa using hqk
          simp [← hfq, this]
      · refine List.mem_map.mpr ⟨q, List.mem_map.mpr ⟨q, hq, ?_⟩, hfq⟩
        rw [if_neg hqk]
  · constructor
    · simp
    · intro k' hk'
      simp only [List.map_append, List.mem_append]
      exact Or.inl hk'

/-- The `get_dependencies` loop never drops a key from the accumulator. -/
theorem getDependenciesAux_keys_mono {ignored services dsQueryRef svcQuery}
    (brs : List (String × String)) (acc : List (String × Dependency))
    {k : String} (hk : k ∈ acc.map Prod.fst) :
    k ∈ (getDependenciesAux ignored services dsQueryRef svcQuery
      brs acc).map Prod.fst := by
  induction brs generalizing acc with
  | nil => exact hk
  | cons br rest ih =>
    rcases br with ⟨ds, fk⟩
    rcases hent : depEntry ignored services dsQueryRef svcQuery ds fk
      with _ | d <;> simp only [getDependenciesAux, hent]
    · exact ih acc hk
    · exact ih _ (dictUpsert_keys.2 k hk)

/-- An unignored back-reference with referencing rows produces a
dependency entry. -/
theorem depEntry_isSome_of_unignored {ignored services dsQueryRef svcQuery}
    {ds fk : String} (hig : ds ∉ ignored)
    (hsvcu : ∀ svc, lookupSvc services ds = some svc → svc.name ∉ ignored)
    (hobj : dsQueryRef ds fk ≠ []) :
    ∃ d, depEntry ignored services dsQueryRef svcQuery ds fk = some d := by
  unfold depEntry
  rw [if_neg hig]
  rcases hsvc : lookupSvc services ds with _ | svc <;> simp only [hsvc]
  · rw [if_neg (by simpa using hobj)]
    exact ⟨_, rfl⟩
  · rw [if_neg (hsvcu svc hsvc), if_neg (by simpa using hobj)]
    exact ⟨_, rfl⟩

/-- An unignored referencing back-reference leaves its key in the final
dependencies dict. -/
theorem getDependenciesAux_complete {ignored services dsQueryRef svcQuery}
    (brs : List (String × String)) (acc : List (String × Dependency))
    {ds fk : String} (hmem : (ds, fk) ∈ brs) (hig : ds ∉ ignored)
    (hsvcu : ∀ svc, lookupSvc services ds = some svc → svc.name ∉ ignored)
    (hobj : dsQueryRef ds fk ≠ []) :
    ds ∈ (getDependenciesAux ignored services dsQueryRef svcQuery
      brs acc).map Prod.fst := by
  revert hmem
  induction brs generalizing acc with
  | nil => intro hmem; cases hmem
  | cons br rest ih =>
    intro hmem
    rcases br with ⟨ds', fk'⟩
    rcases List.mem_cons.mp hmem with heq | htail
    · have heq' : ds = ds' ∧ fk = fk' := by
        simpa using heq
      obtain ⟨rfl, rfl⟩ : ds' = ds ∧ fk' = fk := ⟨heq'.1.symm, heq'.2.symm⟩
      rcases @depEntry_isSome_of_unignored ignored services dsQueryRef
        svcQuery ds' fk' hig hsvcu hobj with ⟨d, hent⟩
      simp only [getDependenciesAux, hent]
      exact getDependenciesAux_keys_mono rest _ (dictUpsert_keys.1)
    · rcases hent : depEntry ignored services dsQueryRef svcQuery ds' fk'
        with _ | d <;> simp only [getDependenciesAux, hent]
      · exact ih acc htail
      · exact ih _ htail

/-- Each dependency's reporting name occurs inside the concatenated
message lines. -/
theorem depName_infix_msgBody {d : Dependency} (deps : List Dependency)
    (k : Nat) (hd : d ∈ deps) :
    (depDisplayName d).data <:+: (depMsgBody k deps).data := by
  induction deps generalizing k with
  | nil => cases hd
  | cons d0 rest ih =>
    rcases List.mem_cons.mp hd with heq | hmem
    · subst heq
      refine ⟨(toString (k + 1) ++ ") '").data,
        ("' " ++ depKindCap d ++ "\n").data ++ (depMsgBody (k + 1) rest).data,
        ?_⟩
      simp only [depMsgBody, depLine, String.data_append, List.append_assoc]
    · rcases ih (k + 1) hmem with ⟨s, t, hst⟩
      refine ⟨(depLine k d0).data ++ s, t, ?_⟩
      simp only [depMsgBody, String.data_append, List.append_assoc, hst]

/-- **C6.** For every CRUD service entry and every ignore-set: the
dependency check walks the registered stores' foreign-key back-references
to this entry, skipping stores (and their services) in the ignore-set; if
any referencing rows exist, deletion is refused with an EBUSY
dependency-conflict error whose message names each referencing
datastore/service and which carries the list of dependents; deletion
proceeds exactly when no unignored dependents remain, and every unignored
back-reference with referencing rows does appear among the dependents. -/
theorem C6_dependency_guarded_deletion (ignored : List String)
    (services : List (String × RefSvc))
    (dsQueryRef : String → String → List PyVal)
    (svcQuery : String → List PyVal → List PyVal)
    (backrefs : List (String × String)) :
    (CRUDService.check_dependencies ignored services dsQueryRef svcQuery
        backrefs = .ok () ↔
      CRUDService.get_dependencies ignored services dsQueryRef svcQuery
        backrefs = []) ∧
    (∀ e, CRUDService.check_dependencies ignored services dsQueryRef
        svcQuery backrefs = .error e →
      e.errno = 16 ∧
      e.dependencies = (CRUDService.get_dependencies ignored services
        dsQueryRef svcQuery backrefs).map Prod.snd ∧
      e.msg = depErrMsg ((CRUDService.get_dependencies ignored services
        dsQueryRef svcQuery backrefs).map Prod.snd) ∧
      ∀ d ∈ (CRUDService.get_dependencies ignored services dsQueryRef
        svcQuery backrefs).map Prod.snd,
        (depDisplayName d).data <:+: e.msg.data) ∧
    (∀ p ∈ CRUDService.get_dependencies ignored services dsQueryRef
        svcQuery backrefs,
      p.1 ∉ ignored ∧ ∀ n, (p.2).service = some n → n ∉ ignored) ∧
    (∀ ds fk, (ds, fk) ∈ backrefs → ds ∉ ignored →
      (∀ svc, lookupSvc services ds = some svc → svc.name ∉ ignored) →
      dsQueryRef ds fk ≠ [] →
      ∃ d, (ds, d) ∈ CRUDService.get_dependencies ignored services
        dsQueryRef svcQuery backrefs) := by
  refine ⟨?_, ?_, ?_, ?_⟩
  · unfold CRUDService.check_dependencies
    by_cases hemp : (CRUDService.get_dependencies ignored services
      dsQueryRef svcQuery backrefs).isEmpty = true
    · rw [if_pos hemp]
      simpa using List.isEmpty_iff.mp hemp
    · rw [if_neg hemp]
      constructor
      · intro h; cases h
      · intro h
        exact absurd (List.isEmpty_iff.mpr h) hemp
  · intro e herr
    unfold CRUDService.check_dependencies at herr
    split_ifs at herr with hemp
    injection herr with herr
    subst herr
    refine ⟨rfl, rfl, rfl, ?_⟩
    intro d hd
    rcases depName_infix_msgBody _ 0 hd with ⟨s, t, hst⟩
    exact ⟨"This object is being used by following service(s):\n".data ++ s,
      t, by simp only [depErrMsg, String.data_append, List.append_assoc, hst]⟩
  · intro p hp
    exact getDependenciesAux_unignored backrefs [] (by simp) p hp
  · intro ds fk hmem hig hsvcu hobj
    have hkey := @getDependenciesAux_complete ignored services dsQueryRef
      svcQuery backrefs [] ds fk hmem hig hsvcu hobj
    rcases List.mem_map.mp hkey with ⟨p, hp, hp1⟩
    refine ⟨p.2, ?_⟩
    have hpe : ((p.1, p.2) : String × Dependency) = p := Prod.mk.eta
    rw [← hp1, hpe]
    exact hp

/-- A concrete referencing-row oracle for the C6 witness. -/
def shareQueryRefOracle : String → String → List PyVal := fun _ _ =>
  [PyVal.dict [("id", PyVal.int 5)]]

/-- Witness for C6: one back-reference from store `share` (owned by
service `sharesvc`) with a live referencing row and an empty ignore-set
yields a dependent for `share`. -/
theorem C6_dependency_guarded_deletion_witness :
    ("share", "disk_id") ∈ [("share", "disk_id")] ∧
    ("share" ∉ ([] : List String)) ∧
    (shareQueryRefOracle "share" "disk_id" ≠ []) ∧
    ∃ d, ("share", d) ∈ CRUDService.get_dependencies []
      [("share", ⟨"sharesvc", SvcType.plain, ""⟩)]
      shareQueryRefOracle (fun _ objs => objs) [("share", "disk_id")] := by
  refine ⟨List.mem_singleton.mpr rfl, List.not_mem_nil _, ?_, ?_⟩
  · intro h; cases h
  · exact (C6_dependency_guarded_deletion []
      [("share", ⟨"sharesvc", SvcType.plain, ""⟩)]
      shareQueryRefOracle (fun _ objs => objs)
      [("share", "disk_id")]).2.2.2 "share" "disk_id"
      (List.mem_singleton.mpr rfl) (List.not_mem_nil _)
      (fun _ _ => List.not_mem_nil _) (fun h => by cases h)

/-! ## ConfigService._get_or_insert: double-checked insert-or-fetch

Embedding of `ConfigService.config` / `ConfigService._get_or_insert`
(service.py:567-592) as a transition system over `n` concurrent callers.
Each caller runs the program: read the config row (`datastore.config`); on
`IndexError` acquire the single process-wide `get_or_insert_lock`
(service.py:41), re-attempt the read, and only if still absent insert an
empty default row before re-reading.  Datastore reads/inserts are atomic
steps; the cooperative scheduler interleaves callers arbitrarily. -/

/-- Program counter of one `config()` caller inside `_get_or_insert`:
`p0` = first `datastore.config` attempt (line 585); `p1` = `IndexError`
raised, waiting on `get_or_insert_lock` (line 587); `p2` = lock held,
re-attempting the read (line 589); `p3` = second `IndexError`, about to
`datastore.insert` (line 591); `p4` = inserted, about to do the final read
(line 592); `done` = returned. -/
inductive GIPc where
  | p0 : GIPc
  | p1 : GIPc
  | p2 : GIPc
  | p3 : GIPc
  | p4 : GIPc
  | done : GIPc
deriving Repr, DecidableEq

/-- Global state of the `n`-caller system: whether the single config row
exists, how many `datastore.insert` calls have executed, who holds
`get_or_insert_lock`, and each caller's program counter. -/
structure GIState (n : Nat) where
  rowExists : Bool
  inserts : Nat
  lockHolder : Option (Fin n)
  pc : Fin n → GIPc

/-- Initial state: empty backing store, no inserts, lock free, all callers
about to issue their first read. -/
def giInit (n : Nat) : GIState n :=
  { rowExists := false, inserts := 0, lockHolder := Option.none,
    pc := fun _ => .p0 }

/-- One interleaved step of the system (the atomic datastore / lock
operations of `_get_or_insert`). -/
inductive GIStep (n : Nat) : GIState n → GIState n → Prop where
  /-- first `datastore.config` succeeds: caller returns -/
  | readHit (s : GIState n) (c : Fin n) (h1 : s.pc c = .p0)
      (h2 : s.rowExists = true) :
      GIStep n s { s with pc := Function.update s.pc c .done }
  /-- first `datastore.config` raises `IndexError` -/
  | readMiss (s : GIState n) (c : Fin n) (h1 : s.pc c = .p0)
      (h2 : s.rowExists = false) :
      GIStep n s { s with pc := Function.update s.pc c .p1 }
  /-- `async with get_or_insert_lock` acquires the free lock -/
  | acquire (s : GIState n) (c : Fin n) (h1 : s.pc c = .p1)
      (h2 : s.lockHolder = Option.none) :
      GIStep n s { s with lockHolder := some c,
                          pc := Function.update s.pc c .p2 }
  /-- re-read under the lock succeeds: return, releasing the lock -/
  | rereadHit (s : GIState n) (c : Fin n) (h1 : s.pc c = .p2)
      (h2 : s.rowExists = true) :
      GIStep n s { s with lockHolder := Option.none,
                          pc := Function.update s.pc c .done }
  /-- re-read under the lock raises `IndexError` again -/
  | rereadMiss (s : GIState n) (c : Fin n) (h1 : s.pc c = .p2)
      (h2 : s.rowExists = false) :
      GIStep n s { s with pc := Function.update s.pc c .p3 }
  /-- `datastore.insert(datastore, {})` under the lock -/
  | insert (s : GIState n) (c : Fin n) (h1 : s.pc c = .p3) :
      GIStep n s { s with rowExists := true, inserts := s.inserts + 1,
                          pc := Function.update s.pc c .p4 }
  /-- final read after the insert: return, releasing the lock -/
  | finalRead (s : GIState n) (c : Fin n) (h1 : s.pc c = .p4) :
      GIStep n s { s with lockHolder := Option.none,
                          pc := Function.update s.pc c .done }

/-- States reachable from the all-callers-start, empty-store initial
state. -/
inductive GIReachable (n : Nat) : GIState n → Prop where
  | init : GIReachable n (giInit n)
  | step {s t : GIState n} : GIReachable n s → GIStep n s t →
      GIReachable n t

/-- The inductive invariant of the system: (A) callers inside the
critical section hold the lock; (B) a caller about to insert saw an empty
store that is still empty; (C) the row exists iff an insert has executed;
(D) at most one insert ever executes; (E) a caller that inserted or
returned implies the row exists. -/
def GIInv {n : Nat} (s : GIState n) : Prop :=
  (∀ c, (s.pc c = .p2 ∨ s.pc c = .p3 ∨ s.pc c = .p4) →
    s.lockHolder = some c) ∧
  (∀ c, s.pc c = .p3 → s.rowExists = false) ∧
  (s.rowExists = true ↔ 1 ≤ s.inserts) ∧
  s.inserts ≤ 1 ∧
  (∀ c, (s.pc c = .p4 ∨ s.pc c = .done) → s.rowExists = true)

/-- The invariant holds in every reachable state. -/
theorem GIInv_of_reachable {n : Nat} {s : GIState n}
    (h : GIReachable n s) : GIInv s := by
  induction h with
  | init =>
    refine ⟨?_, ?_, ?_, ?_, ?_⟩ <;> simp [giInit]
  | @step s1 t1 hr hst ih =>
    obtain ⟨A, B, C, D, E⟩ := ih
    cases hst with
    | readHit c h1 h2 =>
      refine ⟨?_, ?_, C, D, ?_⟩
      · intro c' hc'
        by_cases hcc : c' = c
        · subst hcc
          simp only [Function.update_same] at hc'
          rcases hc' with h | h | h <;> cases h
        · simp only [Function.update_noteq hcc] at hc'
          exact A c' hc'
      · intro c' hc'
        by_cases hcc : c' = c
        · subst hcc
          simp only [Function.update_same] at hc'
          cases hc'
        · simp only [Function.update_noteq hcc] at hc'
          exact B c' hc'
      · intro c' hc'
        by_cases hcc : c' = c
        · exact h2
        · simp only [Function.update_noteq hcc] at hc'
          exact E c' hc'
    | readMiss c h1 h2 =>
      refine ⟨?_, ?_, C, D, ?_⟩
      · intro c' hc'
        by_cases hcc : c' = c
        · subst hcc
          simp only [Function.update_same] at hc'
          rcases hc' with h | h | h <;> cases h
        · simp only [Function.update_noteq hcc] at hc'
          exact A c' hc'
      · intro c' hc'
        by_cases hcc : c' = c
        · subst hcc
          simp only [Function.update_same] at hc'
          cases hc'
        · simp only [Function.update_noteq hcc] at hc'
          exact B c' hc'
      · intro c' hc'
        by_cases hcc : c' = c
        · subst hcc
          simp only [Function.update_same] at hc'
          rcases hc' with h | h <;> cases h
        · simp only [Function.update_noteq hcc] at hc'
          exact E c' hc'
    | acquire c h1 h2 =>
      refine ⟨?_, ?_, C, D, ?_⟩
      · intro c' hc'
        by_cases hcc : c' = c
        · subst hcc
          rfl
        · simp only [Function.update_noteq hcc] at hc'
          have := A c' hc'
          rw [h2] at this
          cases this
      · intro c' hc'
        by_cases hcc : c' = c
        · subst hcc
          simp only [Function.update_same] at hc'
          cases hc'
        · simp only [Function.update_noteq hcc] at hc'
          exact B c' hc'
      · intro c' hc'
        by_cases hcc : c' = c
        · subst hcc
          simp only [Function.update_same] at hc'
          rcases hc' with h | h <;> cases h
        · simp only [Function.update_noteq hcc] at hc'
          exact E c' hc'
    | rereadHit c h1 h2 =>
      refine ⟨?_, ?_, C, D, ?_⟩
      · intro c' hc'
        by_cases hcc : c' = c
        · subst hcc
          simp only [Function.update_same] at hc'
          rcases hc' with h | h | h <;> cases h
        · simp only [Function.update_noteq hcc] at hc'
          have hcceq : c' = c :=
            Option.some.inj ((A c' hc').symm.trans (A c (Or.inl h1)))
          exact absurd hcceq hcc
      · intro c' hc'
        by_cases hcc : c' = c
        · subst hcc
          simp only [Function.update_same] at hc'
          cases hc'
        · simp only [Function.update_noteq hcc] at hc'
          exact B c' hc'
      · intro c' hc'
        by_cases hcc : c' = c
        · exact h2
        · simp only [Function.update_noteq hcc] at hc'
          exact E c' hc'
    | rereadMiss c h1 h2 =>
      refine ⟨?_, ?_, C, D, ?_⟩
      · intro c' hc'
        by_cases hcc : c' = c
        · rw [hcc]
          exact A c (Or.inl h1)
        · simp only [Function.update_noteq hcc] at hc'
          exact A c' hc'
      · intro c' hc'
        by_cases hcc : c' = c
        · exact h2
        · simp only [Function.update_noteq hcc] at hc'
          exact B c' hc'
      · intro c' hc'
        by_cases hcc : c' = c
        · subst hcc
          simp only [Function.update_same] at hc'
          rcases hc' with h | h <;> cases h
        · simp only [Function.update_noteq hcc] at hc'
          exact E c' hc'
    | insert c h1 =>
      refine ⟨?_, ?_, ?_, ?_, ?_⟩
      · intro c' hc'
        by_cases hcc : c' = c
        · rw [hcc]
          exact A c (Or.inr (Or.inl h1))
        · simp only [Function.update_noteq hcc] at hc'
          exact A c' hc'
      · intro c' hc'
        by_cases hcc : c' = c
        · subst hcc
          simp only [Function.update_same] at hc'
          cases hc'
        · simp only [Function.update_noteq hcc] at hc'
          have hcceq : c' = c :=
            Option.some.inj ((A c' (Or.inr (Or.inl hc'))).symm.trans
              (A c (Or.inr (Or.inl h1))))
          exact absurd hcceq hcc
      · constructor
        · intro _
          exact Nat.succ_le_succ (Nat.zero_le _)
        · intro _
          rfl
      · have hrow : s1.rowExists = false := B c h1
        have h0 : s1.inserts = 0 := by
          by_contra hne
          have hpos : 1 ≤ s1.inserts := Nat.one_le_iff_ne_zero.mpr hne
          rw [C.mpr hpos] at hrow
          cases hrow
        show s1.inserts + 1 ≤ 1
        rw [h0]
      · intro c' _
        rfl
    | finalRead c h1 =>
      refine ⟨?_, ?_, C, D, ?_⟩
      · intro c' hc'
        by_cases hcc : c' = c
        · subst hcc
          simp only [Function.update_same] at hc'
          rcases hc' with h | h | h <;> cases h
        · simp only [Function.update_noteq hcc] at hc'
          have hcceq : c' = c :=
            Option.some.inj ((A c' hc').symm.trans
              (A c (Or.inr (Or.inr h1))))
          exact absurd hcceq hcc
      · intro c' hc'
        by_cases hcc : c' = c
        · subst hcc
          simp only [Function.update_same] at hc'
          cases hc'
        · simp only [Function.update_noteq hcc] at hc'
          exact B c' hc'
      · intro c' hc'
        by_cases hcc : c' = c
        · exact E c (Or.inl h1)
        · simp only [Function.update_noteq hcc] at hc'
          exact E c' hc'

/-- **C5.** `config()` performs a double-checked insert-or-fetch (first
read; on not-found acquire the single process-wide `get_or_insert_lock`,
re-read, and only if still absent insert the empty default row): in every
state reachable by any interleaving of `n` concurrent first-time callers
against an initially empty store, at most one default row has been
inserted, and once every caller has returned (with at least one caller)
exactly one default row was inserted. -/
theorem C5_get_or_insert_single_insert (n : Nat) (s : GIState n)
    (h : GIReachable n s) :
    s.inserts ≤ 1 ∧
    ((∀ c, s.pc c = .done) → 0 < n → s.inserts = 1) := by
  obtain ⟨A, B, C, D, E⟩ := GIInv_of_reachable h
  refine ⟨D, fun hdone hn => ?_⟩
  have hrow : s.rowExists = true := E ⟨0, hn⟩ (Or.inr (hdone ⟨0, hn⟩))
  exact Nat.le_antisymm D (C.mp hrow)

/-- Witness for C5: a complete single-caller run (read misses, lock
acquired, re-read misses, insert, final read) reaches an all-done state
with exactly one insert. -/
theorem C5_get_or_insert_single_insert_witness :
    ∃ s : GIState 1, GIReachable 1 s ∧ (∀ c, s.pc c = .done) ∧
      s.inserts = 1 := by
  have r0 : GIReachable 1 (giInit 1) := GIReachable.init
  have r1 := GIReachable.step r0 (GIStep.readMiss (giInit 1) 0 rfl rfl)
  have r2 := GIReachable.step r1 (GIStep.acquire _ 0 (by decide) rfl)
  have r3 := GIReachable.step r2 (GIStep.rereadMiss _ 0 (by decide) rfl)
  have r4 := GIReachable.step r3 (GIStep.insert _ 0 (by decide))
  have r5 := GIReachable.step r4 (GIStep.finalRead _ 0 (by decide))
  refine ⟨_, r5, ?_, ?_⟩
  · intro c
    fin_cases c
    decide
  · refine (C5_get_or_insert_single_insert 1 _ r5).2 ?_ Nat.one_pos
    intro c
    fin_cases c
    decide

/-! ## TDB-wrapped (clustered) services

Embedding of `TDBWrapConfigService` (service.py:595-761) and the
corresponding parts of `TDBWrapCRUDService` (service.py:1267-1496):
health-check caching, the health-gated read paths returning
`tdb_defaults`, version reconciliation, and the write paths.  The
clustered-backend boundary (`ctdb.general.healthy`, `tdb.health`,
`tdb.config`, `tdb.config_update`, `tdb.create/update/delete`) is
represented by oracle outcomes; a trace of boundary calls is emitted. -/

/-- The `{major, minor}` service version stamp. -/
structure Version where
  major : Nat
  minor : Nat
deriving Repr, DecidableEq

/-- `f'{v["major"]}.{v["minor"]}'`. -/
def verStr (v : Version) : String :=
  toString v.major ++ "." ++ toString v.minor

/-- The health-cache state of a TDB-wrapped service: `status` (`None`
until the first probe), `last_check` and `time_offset` (seconds,
default 30). -/
structure HealthState where
  status : Option Bool
  last_check : Nat
  time_offset : Nat
deriving Repr, DecidableEq

/-- Python truthiness of the value `cluster_healthy()` returns (`None`
before any probe counts as unhealthy). -/
def optTruthy : Option Bool → Bool
  | some b => b
  | Option.none => false

/-- Result of one `cluster_healthy()` call: the value returned, the
updated cache state, and whether the external predicate was invoked. -/
structure CHResult where
  value : Option Bool
  state : HealthState
  probed : Bool
deriving Repr

/-- `TDBWrapConfigService.cluster_healthy` /
`TDBWrapCRUDService.cluster_healthy` (service.py:636-657, 1308-1329):
within `time_offset` of the last probe return the cached `status` without
re-probing; otherwise invoke `cluster_healthy_fn` (a raising probe is
recorded as unhealthy) and cache the result. -/
def cluster_healthy (st : HealthState) (now : Nat)
    (probe : Except Unit Bool) : CHResult :=
  if st.last_check + st.time_offset > now then
    ⟨st.status, st, false⟩
  else
    let status := match probe with
      | .ok b => b
      | .error _ => false
    ⟨some status, { st with status := some status, last_check := now }, true⟩

/-- `db_healthy` (service.py:659-675, 1351-1368): `tdb.health` must
succeed and report `"OK"`; an exception or any other status is
unhealthy. -/
def db_healthy (tdbHealth : Except Unit String) : Bool :=
  match tdbHealth with
  | .error _ => false
  | .ok h => h == "OK"

/-- One boundary call of a TDB-wrapped operation, in program order. -/
inductive TDBEv where
  /-- invocation of the external `cluster_healthy_fn` predicate -/
  | clusterProbe : TDBEv
  /-- invocation of the local-replica `tdb.health` probe -/
  | dbProbe : TDBEv
  /-- `tdb.config` / `tdb.query` read -/
  | tdbRead : TDBEv
  /-- `tdb.config_update` / `tdb.create` / `tdb.update` / `tdb.delete` /
  `tdb.batch_ops` write -/
  | tdbWrite : TDBEv
  /-- local `datastore.*` write (non-clustered path) -/
  | datastoreWrite : TDBEv
  /-- `self.logger.error` for the version-mismatch degrade -/
  | logError : TDBEv
deriving Repr, DecidableEq

/-- The clustered config store contents as read by `tdb.config`:
`{'version': ..., 'data': ...}`. -/
structure TDBStore where
  version : Option Version
  data : Option PyVal
deriving Repr

/-- Python `dict.update`: keys of `upd` override, the rest of `base`
keeps its order, new keys are appended. -/
def dictMerge (base upd : List (String × PyVal)) : List (String × PyVal) :=
  base.map (fun p =>
    match upd.find? (fun q => q.1 == p.1) with
    | some q => (p.1, q.2)
    | Option.none => p) ++
  upd.filter (fun q => !(base.any (fun p => p.1 == q.1)))

/-- `new.update(data)` on the payload dicts. -/
def PyVal.dictUpdate : PyVal → PyVal → PyVal
  | .dict base, .dict upd => .dict (dictMerge base upd)
  | v, _ => v

/-- `if not self._config.datastore_extend: return data; return await
self.middleware.call(self._config.datastore_extend, data)`. -/
def applyExtend (extend : Option (PyVal → PyVal)) (v : PyVal) : PyVal :=
  match extend with
  | Option.none => v
  | some f => f v

/-- The tail of the clustered `config()` read path (service.py:686-706):
read `tdb.config`; substitute `tdb_defaults` when the stored data is
absent; on a version stamp differing from the compiled-in
`service_version`, log an error and substitute `tdb_defaults`; finally
apply the extend transform if registered. -/
def configReadTail (svcVersion : Version) (tdbDefaults : PyVal)
    (extend : Option (PyVal → PyVal)) (store : TDBStore)
    (st1 : HealthState) (evs : List TDBEv) :
    Except SvcError PyVal × HealthState × List TDBEv :=
  let data0 := match store.data with
    | Option.none => tdbDefaults
    | some d => d
  let mismatch := match store.version with
    | some v => decide (svcVersion ≠ v)
    | Option.none => false
  let data1 := if mismatch then tdbDefaults else data0
  (.ok (applyExtend extend data1), st1,
   evs ++ [TDBEv.tdbRead] ++ (if mismatch then [TDBEv.logError] else []))

/-- `TDBWrapConfigService.config` (service.py:677-706): non-clustered
falls through to `ConfigService.config`; clustered and unhealthy by both
probes returns a copy of `tdb_defaults` without raising; otherwise the
read path with version reconciliation runs. -/
def TDBWrapConfigService.config (svcVersion : Version)
    (tdbDefaults : PyVal) (extend : Option (PyVal → PyVal))
    (st : HealthState) (now : Nat) (is_clustered : Bool)
    (probe : Except Unit Bool) (tdbHealth : Except Unit String)
    (store : TDBStore) (localConfig : PyVal) :
    Except SvcError PyVal × HealthState × List TDBEv :=
  if is_clustered = false then (.ok localConfig, st, [])
  else
    let ch := cluster_healthy st now probe
    let evs := if ch.probed then [TDBEv.clusterProbe] else []
    if optTruthy ch.value = false then
      if db_healthy tdbHealth = false then
        (.ok tdbDefaults, ch.state, evs ++ [TDBEv.dbProbe])
      else
        configReadTail svcVersion tdbDefaults extend store ch.state
          (evs ++ [TDBEv.dbProbe])
    else
      configReadTail svcVersion tdbDefaults extend store ch.state evs

/-- The `CallError` message of a blocked clustered write. -/
def unhealthyWriteMsg : String :=
  "Clustered configuration may not be altered while cluster is unhealthy."

/-- The version-mismatch `CallError` message of
`TDBWrapConfigService.direct_update` (service.py:743-747), naming the
node's compiled-in version and the stored cluster version (faithful to
the source f-string, including the missing space). -/
def configVersionMismatchMsg (ns : String) (svcVersion stored : Version) :
    String :=
  ns ++ ": service version mismatch. Node: " ++ verStr svcVersion ++
    "cluster: " ++ verStr stored

/-- `TDBWrapConfigService.direct_update` (service.py:708-757).
`writeOk` is the outcome of the external `tdb.config_update` call
(`false` = the backend raised `ValueError` for a version conflict, in
which case nothing was written).  Returns the outcome, the health cache,
the store contents after the call, and the boundary trace. -/
def TDBWrapConfigService.direct_update (ns : String) (svcVersion : Version)
    (tdbDefaults : PyVal) (extend : Option (PyVal → PyVal))
    (st : HealthState) (now : Nat) (is_clustered : Bool)
    (probe : Except Unit Bool) (store : TDBStore) (writeOk : Bool)
    (localUpdate : PyVal → PyVal) (data : PyVal) :
    Except SvcError PyVal × HealthState × TDBStore × List TDBEv :=
  if is_clustered = false then
    (.ok (localUpdate data), st, store, [TDBEv.datastoreWrite])
  else
    let ch := cluster_healthy st now probe
    let evs := if ch.probed then [TDBEv.clusterProbe] else []
    if optTruthy ch.value = false then
      (.error (.callError unhealthyWriteMsg 14 []), ch.state, store, evs)
    else
      let new0 := match store.data with
        | Option.none => tdbDefaults
        | some d => d
      let new1 := new0.dictUpdate data
      if writeOk then
        (.ok (applyExtend extend new1), ch.state,
         (⟨some svcVersion, some new1⟩ : TDBStore),
         evs ++ [TDBEv.tdbRead, TDBEv.tdbWrite, TDBEv.tdbRead])
      else
        match store.version with
        | some v =>
          (.error (.callError (configVersionMismatchMsg ns svcVersion v)
              14 []),
           ch.state, store, evs ++ [TDBEv.tdbRead, TDBEv.tdbWrite])
        | Option.none =>
          (.error (.backendError "TypeError: NoneType is not subscriptable"),
           ch.state, store, evs ++ [TDBEv.tdbRead, TDBEv.tdbWrite])

/-- The tail of the clustered `TDBWrapCRUDService.query` read path
(service.py:1380-1410): read `tdb.query`; absent data or a version
mismatch (logged) returns a copy of `tdb_defaults` directly; otherwise
the entries are extended (if a transform is registered; an empty extended
set with non-empty defaults first seeds the backend via
`insert_defaults`) and the caller's filters/options are applied
in-process with `filter_list`. -/
def crudQueryTail (svcVersion : Version) (tdbDefaults : List PyVal)
    (extend : Option (PyVal → PyVal))
    (filterList : List PyVal → Filters → QOptions → PyVal)
    (storeVersion : Option Version) (storeData : Option (List PyVal))
    (filters : Filters) (options : QOptions)
    (st1 : HealthState) (evs : List TDBEv) :
    Except SvcError PyVal × HealthState × List TDBEv :=
  match storeData with
  | Option.none =>
    (.ok (PyVal.list tdbDefaults), st1, evs ++ [TDBEv.tdbRead])
  | some data =>
    let mismatch := match storeVersion with
      | some v => decide (svcVersion ≠ v)
      | Option.none => false
    if mismatch then
      (.ok (PyVal.list tdbDefaults), st1,
       evs ++ [TDBEv.tdbRead, TDBEv.logError])
    else
      match extend with
      | Option.none =>
        (.ok (filterList data filters options), st1, evs ++ [TDBEv.tdbRead])
      | some f =>
        let toFilter := data.map f
        if toFilter.isEmpty && !tdbDefaults.isEmpty then
          (.ok (filterList tdbDefaults filters options), st1,
           evs ++ [TDBEv.tdbRead, TDBEv.tdbWrite])
        else
          (.ok (filterList toFilter filters options), st1,
           evs ++ [TDBEv.tdbRead])

/-- `TDBWrapCRUDService.query` (service.py:1370-1410): non-clustered
falls through to `CRUDService.query`; clustered and unhealthy by both
probes returns a copy of `tdb_defaults` without raising; otherwise the
read path runs. -/
def TDBWrapCRUDService.query (svcVersion : Version)
    (tdbDefaults : List PyVal) (extend : Option (PyVal → PyVal))
    (filterList : List PyVal → Filters → QOptions → PyVal)
    (st : HealthState) (now : Nat) (is_clustered : Bool)
    (probe : Except Unit Bool) (tdbHealth : Except Unit String)
    (storeVersion : Option Version) (storeData : Option (List PyVal))
    (localQuery : PyVal) (filters : Filters) (options : QOptions) :
    Except SvcError PyVal × HealthState × List TDBEv :=
  if is_clustered = false then (.ok localQuery, st, [])
  else
    let ch := cluster_healthy st now probe
    let evs := if ch.probed then [TDBEv.clusterProbe] else []
    if optTruthy ch.value = false then
      if db_healthy tdbHealth = false then
        (.ok (PyVal.list tdbDefaults), ch.state, evs ++ [TDBEv.dbProbe])
      else
        crudQueryTail svcVersion tdbDefaults extend filterList storeVersion
          storeData filters options ch.state (evs ++ [TDBEv.dbProbe])
    else
      crudQueryTail svcVersion tdbDefaults extend filterList storeVersion
        storeData filters options ch.state evs

/-- The version-mismatch `CallError` message of the
`TDBWrapCRUDService.direct_create`/`direct_update` paths
(service.py:1432-1436, 1465-1469), naming only the node's version. -/
def crudVersionMismatchMsg (ns : String) (svcVersion : Version) : String :=
  ns ++ ": service version mismatch. Node: " ++ verStr svcVersion

/-- `TDBWrapCRUDService.direct_create` (service.py:1412-1438).
`tdbCreate` is the external `tdb.create` outcome (`error` = the backend
raised `ValueError`). -/
def TDBWrapCRUDService.direct_create (ns : String) (svcVersion : Version)
    (st : HealthState) (now : Nat) (is_clustered : Bool)
    (probe : Except Unit Bool) (tdbCreate : Except Unit PyVal)
    (localInsert : PyVal) :
    Except SvcError PyVal × HealthState × List TDBEv :=
  if is_clustered = false then (.ok localInsert, st, [TDBEv.datastoreWrite])
  else
    let ch := cluster_healthy st now probe
    let evs := if ch.probed then [TDBEv.clusterProbe] else []
    if optTruthy ch.value = false then
      (.error (.callError unhealthyWriteMsg 14 []), ch.state, evs)
    else
      match tdbCreate with
      | .ok res => (.ok res, ch.state, evs ++ [TDBEv.tdbWrite])
      | .error _ =>
        (.error (.callError (crudVersionMismatchMsg ns svcVersion) 14 []),
         ch.state, evs ++ [TDBEv.tdbWrite])

/-- `TDBWrapCRUDService.direct_update` (service.py:1444-1471): same
gating as `direct_create`, keyed by `id`. -/
def TDBWrapCRUDService.direct_update (ns : String) (svcVersion : Version)
    (st : HealthState) (now : Nat) (is_clustered : Bool)
    (probe : Except Unit Bool) (tdbUpdate : Except Unit PyVal)
    (localUpdate : PyVal) :
    Except SvcError PyVal × HealthState × List TDBEv :=
  if is_clustered = false then (.ok localUpdate, st, [TDBEv.datastoreWrite])
  else
    let ch := cluster_healthy st now probe
    let evs := if ch.probed then [TDBEv.clusterProbe] else []
    if optTruthy ch.value = false then
      (.error (.callError unhealthyWriteMsg 14 []), ch.state, evs)
    else
      match tdbUpdate with
      | .ok res => (.ok res, ch.state, evs ++ [TDBEv.tdbWrite])
      | .error _ =>
        (.error (.callError (crudVersionMismatchMsg ns svcVersion) 14 []),
         ch.state, evs ++ [TDBEv.tdbWrite])

/-- `TDBWrapCRUDService.direct_delete` (service.py:1477-1492): same
gating; a backend exception propagates uncaught. -/
def TDBWrapCRUDService.direct_delete (st : HealthState) (now : Nat)
    (is_clustered : Bool) (probe : Except Unit Bool)
    (tdbDelete : Except Unit PyVal) (localDelete : PyVal) :
    Except SvcError PyVal × HealthState × List TDBEv :=
  if is_clustered = false then (.ok localDelete, st, [TDBEv.datastoreWrite])
  else
    let ch := cluster_healthy st now probe
    let evs := if ch.probed then [TDBEv.clusterProbe] else []
    if optTruthy ch.value = false then
      (.error (.callError unhealthyWriteMsg 14 []), ch.state, evs)
    else
      match tdbDelete with
      | .ok res => (.ok res, ch.state, evs ++ [TDBEv.tdbWrite])
      | .error _ =>
        (.error (.backendError "tdb.delete failed"), ch.state,
         evs ++ [TDBEv.tdbWrite])

/-- Is a boundary call a backend write (`tdb.*` mutation or local
`datastore.*` mutation)? -/
def TDBEv.isWrite : TDBEv → Bool
  | .tdbWrite => true
  | .datastoreWrite => true
  | _ => false

/-- The clustered `config()` read tail never consults `tdb.health`. -/
theorem configReadTail_dbProbe {svcVersion tdbDefaults extend store st1 evs}
    (h : TDBEv.dbProbe ∈
      (configReadTail svcVersion tdbDefaults extend store st1 evs).2.2) :
    TDBEv.dbProbe ∈ evs := by
  unfold configReadTail at h
  rcases List.mem_append.mp h with h1 | h2
  · rcases List.mem_append.mp h1 with h3 | h4
    · exact h3
    · exact absurd (List.mem_singleton.mp h4) (by simp)
  · split_ifs at h2
    · exact absurd (List.mem_singleton.mp h2) (by simp)
    · cases h2

/-- **C2.** For every replicated store in a state where the primary
cluster-health probe and the secondary local-replica probe both report
unhealthy: the read operations (`TDBWrapConfigService.config` and
`TDBWrapCRUDService.query`) return the configured default payload and
never raise, whereas the write operations
(`direct_update`/`direct_create`/`direct_delete`) in the same state raise
the explicit unhealthy-cluster error and perform no write to the
backend. -/
theorem C2_degraded_read_write_asymmetry (svcVersion : Version)
    (tdbDefaultsC : PyVal) (tdbDefaultsL : List PyVal)
    (extendC extendL : Option (PyVal → PyVal))
    (filterList : List PyVal → Filters → QOptions → PyVal)
    (st : HealthState) (now : Nat) (probe : Except Unit Bool)
    (tdbHealth : Except Unit String) (store : TDBStore)
    (storeVersion : Option Version) (storeData : Option (List PyVal))
    (localConfig localQuery : PyVal) (ns : String) (writeOk : Bool)
    (localUpdate : PyVal → PyVal) (data : PyVal)
    (filters : Filters) (options : QOptions)
    (tdbCreate tdbUpdate tdbDelete : Except Unit PyVal)
    (localInsert localUpd localDel : PyVal)
    (hch : optTruthy (cluster_healthy st now probe).value = false)
    (hdb : db_healthy tdbHealth = false) :
    (TDBWrapConfigService.config svcVersion tdbDefaultsC extendC st now
        true probe tdbHealth store localConfig).1 = .ok tdbDefaultsC ∧
    (TDBWrapCRUDService.query svcVersion tdbDefaultsL extendL filterList
        st now true probe tdbHealth storeVersion storeData localQuery
        filters options).1 = .ok (PyVal.list tdbDefaultsL) ∧
    ((TDBWrapConfigService.direct_update ns svcVersion tdbDefaultsC extendC
        st now true probe store writeOk localUpdate data).1 =
      .error (.callError unhealthyWriteMsg 14 []) ∧
     (TDBWrapConfigService.direct_update ns svcVersion tdbDefaultsC extendC
        st now true probe store writeOk localUpdate data).2.2.1 = store ∧
     ∀ ev ∈ (TDBWrapConfigService.direct_update ns svcVersion tdbDefaultsC
        extendC st now true probe store writeOk localUpdate data).2.2.2,
       ev.isWrite = false) ∧
    ((TDBWrapCRUDService.direct_create ns svcVersion st now true probe
        tdbCreate localInsert).1 =
      .error (.callError unhealthyWriteMsg 14 []) ∧
     ∀ ev ∈ (TDBWrapCRUDService.direct_create ns svcVersion st now true
        probe tdbCreate localInsert).2.2, ev.isWrite = false) ∧
    ((TDBWrapCRUDService.direct_update ns svcVersion st now true probe
        tdbUpdate localUpd).1 =
      .error (.callError unhealthyWriteMsg 14 []) ∧
     ∀ ev ∈ (TDBWrapCRUDService.direct_update ns svcVersion st now true
        probe tdbUpdate localUpd).2.2, ev.isWrite = false) ∧
    ((TDBWrapCRUDService.direct_delete st now true probe tdbDelete
        localDel).1 = .error (.callError unhealthyWriteMsg 14 []) ∧
     ∀ ev ∈ (TDBWrapCRUDService.direct_delete st now true probe tdbDelete
        localDel).2.2, ev.isWrite = false) := by
  have hprobeEvs : ∀ ev ∈ (if (cluster_healthy st now probe).probed then
      [TDBEv.clusterProbe] else []), TDBEv.isWrite ev = false := by
    intro ev hev
    split_ifs at hev
    · rw [List.mem_singleton.mp hev]
      rfl
    · cases hev
  refine ⟨?_, ?_, ⟨?_, ?_, ?_⟩, ⟨?_, ?_⟩, ⟨?_, ?_⟩, ⟨?_, ?_⟩⟩ <;>
    simp only [TDBWrapConfigService.config, TDBWrapCRUDService.query,
      TDBWrapConfigService.direct_update,
      TDBWrapCRUDService.direct_create, TDBWrapCRUDService.direct_update,
      TDBWrapCRUDService.direct_delete, hch, hdb, if_pos, if_neg,
      Bool.true_eq_false, if_false, if_true, reduceIte] <;>
    first
      | rfl
      | exact hprobeEvs

/-- Witness for C2: a fresh health cache past its offset, a probe that
raises (recorded unhealthy) and a degraded `tdb.health`; the config read
returns the defaults and the config write raises without touching the
backend. -/
theorem C2_degraded_read_write_asymmetry_witness :
    (optTruthy (cluster_healthy ⟨Option.none, 0, 30⟩ 100 (.error ())).value
      = false) ∧
    (db_healthy (.ok "DEGRADED") = false) ∧
    (TDBWrapConfigService.config ⟨0, 1⟩ (PyVal.dict [("srv", PyVal.bool
        false)]) Option.none ⟨Option.none, 0, 30⟩ 100 true (.error ())
        (.ok "DEGRADED") ⟨Option.none, Option.none⟩ PyVal.none).1 =
      .ok (PyVal.dict [("srv", PyVal.bool false)]) ∧
    (TDBWrapConfigService.direct_update "svc" ⟨0, 1⟩ (PyVal.dict [])
        Option.none ⟨Option.none, 0, 30⟩ 100 true (.error ())
        ⟨Option.none, Option.none⟩ true id (PyVal.dict [])).1 =
      .error (.callError unhealthyWriteMsg 14 []) := by
  have h := C2_degraded_read_write_asymmetry ⟨0, 1⟩
    (PyVal.dict [("srv", PyVal.bool false)]) [] Option.none Option.none
    (fun r _ _ => PyVal.list r) ⟨Option.none, 0, 30⟩ 100 (.error ())
    (.ok "DEGRADED") ⟨Option.none, Option.none⟩ Option.none Option.none
    PyVal.none PyVal.none "svc" true id (PyVal.dict []) [] {}
    (.ok PyVal.none) (.ok PyVal.none) (.ok PyVal.none)
    PyVal.none PyVal.none PyVal.none rfl rfl
  refine ⟨rfl, rfl, ?_, ?_⟩
  · have h2 := C2_degraded_read_write_asymmetry ⟨0, 1⟩
      (PyVal.dict [("srv", PyVal.bool false)]) [] Option.none Option.none
      (fun r _ _ => PyVal.list r) ⟨Option.none, 0, 30⟩ 100 (.error ())
      (.ok "DEGRADED") ⟨Option.none, Option.none⟩ Option.none Option.none
      PyVal.none PyVal.none "svc" true id (PyVal.dict []) [] {}
      (.ok PyVal.none) (.ok PyVal.none) (.ok PyVal.none)
      PyVal.none PyVal.none PyVal.none rfl rfl
    exact h2.1
  · have h3 := C2_degraded_read_write_asymmetry ⟨0, 1⟩ (PyVal.dict [])
      [] Option.none Option.none
      (fun r _ _ => PyVal.list r) ⟨Option.none, 0, 30⟩ 100 (.error ())
      (.ok "DEGRADED") ⟨Option.none, Option.none⟩ Option.none Option.none
      PyVal.none PyVal.none "svc" true id (PyVal.dict []) [] {}
      (.ok PyVal.none) (.ok PyVal.none) (.ok PyVal.none)
      PyVal.none PyVal.none PyVal.none rfl rfl
    exact h3.2.2.1.1

/-- **C7.** The external cluster-health predicate is invoked at most once
per re-check interval: a `cluster_healthy()` call less than `time_offset`
after the last probe returns the cached status without re-probing and
leaves the cache untouched; past the interval the predicate is invoked
and cached with `last_check := now`, a raising probe being recorded as
unhealthy; and on the `config()` read path the secondary `tdb.health`
probe is consulted only when the primary probe reports unhealthy. -/
theorem C7_health_check_caching (st : HealthState) (now : Nat)
    (probe : Except Unit Bool) :
    (st.last_check + st.time_offset > now →
      cluster_healthy st now probe = ⟨st.status, st, false⟩) ∧
    (¬ (st.last_check + st.time_offset > now) →
      cluster_healthy st now probe =
        ⟨some (match probe with | .ok b => b | .error _ => false),
         { st with
            status := some (match probe with
              | .ok b => b
              | .error _ => false)
            last_check := now },
         true⟩) ∧
    (∀ e, probe = .error e → ¬ (st.last_check + st.time_offset > now) →
      (cluster_healthy st now probe).value = some false) ∧
    (∀ svcVersion tdbDefaults extend tdbHealth store localConfig,
      TDBEv.dbProbe ∈ (TDBWrapConfigService.config svcVersion tdbDefaults
        extend st now true probe tdbHealth store localConfig).2.2 →
      optTruthy (cluster_healthy st now probe).value = false) := by
  refine ⟨fun hlt => ?_, fun hge => ?_, fun e hprobe hge => ?_, ?_⟩
  · unfold cluster_healthy
    rw [if_pos hlt]
  · unfold cluster_healthy
    rw [if_neg hge]
  · unfold cluster_healthy
    rw [if_neg hge, hprobe]
  · intro svcVersion tdbDefaults extend tdbHealth store localConfig hmem
    by_cases hH : optTruthy (cluster_healthy st now probe).value = false
    · exact hH
    · exfalso
      simp only [TDBWrapConfigService.config, Bool.true_eq_false,
        reduceIte] at hmem
      rw [if_neg hH] at hmem
      have hevs := configReadTail_dbProbe hmem
      split_ifs at hevs
      · exact absurd (List.mem_singleton.mp hevs) (by simp)
      · cases hevs

/-- Witness for C7: a cache refreshed 10s ago with `time_offset` 30
answers from the cache at t=20; a fresh cache whose probe raises records
unhealthy at t=50. -/
theorem C7_health_check_caching_witness :
    ((10 : Nat) + 30 > 20) ∧
    cluster_healthy ⟨some true, 10, 30⟩ 20 (.error ()) =
      ⟨some true, ⟨some true, 10, 30⟩, false⟩ ∧
    (¬ ((0 : Nat) + 30 > 50)) ∧
    (cluster_healthy ⟨Option.none, 0, 30⟩ 50 (.error ())).value =
      some false := by
  refine ⟨by decide, ?_, by decide, ?_⟩
  · exact (C7_health_check_caching ⟨some true, 10, 30⟩ 20 (.error ())).1
      (by decide)
  · exact (C7_health_check_caching ⟨Option.none, 0, 30⟩ 50
      (.error ())).2.2.1 () rfl (by decide)

/-- **C3.** For every replicated store, when the stored version stamp
differs from the compiled-in `service_version`: a read (`config`/`query`
on a clustered backend whose health gate passes) logs an error and
returns the default payload (through the extend transform) instead of the
stored data; and a write (`TDBWrapConfigService.direct_update`) whose
backend rejects the version raises the explicit version-mismatch
`CallError` naming both the local and the stored versions, leaving the
stored data unaltered. -/
theorem C3_version_mismatch_reconciliation (ns : String)
    (svcVersion v : Version) (tdbDefaultsC : PyVal)
    (tdbDefaultsL : List PyVal) (extendC extendL : Option (PyVal → PyVal))
    (filterList : List PyVal → Filters → QOptions → PyVal)
    (st : HealthState) (now : Nat) (probe : Except Unit Bool)
    (tdbHealth : Except Unit String) (storeData : Option PyVal)
    (storeDataL : List PyVal) (localConfig localQuery : PyVal)
    (localUpdate : PyVal → PyVal) (data : PyVal)
    (filters : Filters) (options : QOptions)
    (hne : svcVersion ≠ v)
    (hch : optTruthy (cluster_healthy st now probe).value = true) :
    ((TDBWrapConfigService.config svcVersion tdbDefaultsC extendC st now
        true probe tdbHealth ⟨some v, storeData⟩ localConfig).1 =
      .ok (applyExtend extendC tdbDefaultsC) ∧
     TDBEv.logError ∈ (TDBWrapConfigService.config svcVersion tdbDefaultsC
        extendC st now true probe tdbHealth ⟨some v, storeData⟩
        localConfig).2.2) ∧
    ((TDBWrapCRUDService.query svcVersion tdbDefaultsL extendL filterList
        st now true probe tdbHealth (some v) (some storeDataL) localQuery
        filters options).1 = .ok (PyVal.list tdbDefaultsL) ∧
     TDBEv.logError ∈ (TDBWrapCRUDService.query svcVersion tdbDefaultsL
        extendL filterList st now true probe tdbHealth (some v)
        (some storeDataL) localQuery filters options).2.2) ∧
    ((TDBWrapConfigService.direct_update ns svcVersion tdbDefaultsC
        extendC st now true probe ⟨some v, storeData⟩ false localUpdate
        data).1 =
      .error (.callError (configVersionMismatchMsg ns svcVersion v)
        14 []) ∧
     (TDBWrapConfigService.direct_update ns svcVersion tdbDefaultsC
        extendC st now true probe ⟨some v, storeData⟩ false localUpdate
        data).2.2.1 = ⟨some v, storeData⟩ ∧
     (verStr svcVersion).data <:+:
       (configVersionMismatchMsg ns svcVersion v).data ∧
     (verStr v).data <:+:
       (configVersionMismatchMsg ns svcVersion v).data) := by
  have hH : ¬ (optTruthy (cluster_healthy st now probe).value = false) := by
    rw [hch]
    simp
  refine ⟨⟨?_, ?_⟩, ⟨?_, ?_⟩, ?_, ?_, ?_, ?_⟩
  · simp only [TDBWrapConfigService.config, Bool.true_eq_false, reduceIte]
    rw [if_neg hH]
    simp [configReadTail, hne]
  · simp only [TDBWrapConfigService.config, Bool.true_eq_false, reduceIte]
    rw [if_neg hH]
    simp [configReadTail, hne]
  · simp only [TDBWrapCRUDService.query, Bool.true_eq_false, reduceIte]
    rw [if_neg hH]
    simp [crudQueryTail, hne]
  · simp only [TDBWrapCRUDService.query, Bool.true_eq_false, reduceIte]
    rw [if_neg hH]
    simp [crudQueryTail, hne]
  · simp only [TDBWrapConfigService.direct_update, Bool.true_eq_false,
      reduceIte]
    rw [if_neg hH]
    simp
  · simp only [TDBWrapConfigService.direct_update, Bool.true_eq_false,
      reduceIte]
    rw [if_neg hH]
    simp
  · refine ⟨(ns ++ ": service version mismatch. Node: ").data,
      ("cluster: " ++ verStr v).data, ?_⟩
    simp only [configVersionMismatchMsg, String.data_append,
      List.append_assoc]
  · refine ⟨(ns ++ ": service version mismatch. Node: " ++
      verStr svcVersion ++ "cluster: ").data, [], ?_⟩
    simp only [configVersionMismatchMsg, String.data_append,
      List.append_assoc, List.append_nil]

/-- Witness for C3: node version 0.1 against stored version 0.2 on a
healthy cluster: the read substitutes the defaults and the rejected write
raises the message naming `0.1` and `0.2`. -/
theorem C3_version_mismatch_reconciliation_witness :
    ((⟨0, 1⟩ : Version) ≠ (⟨0, 2⟩ : Version)) ∧
    (optTruthy (cluster_healthy ⟨Option.none, 0, 30⟩ 50 (.ok true)).value
      = true) ∧
    (TDBWrapConfigService.config ⟨0, 1⟩ (PyVal.dict []) Option.none
        ⟨Option.none, 0, 30⟩ 50 true (.ok true) (.ok "OK")
        ⟨some ⟨0, 2⟩, some (PyVal.dict [("x", PyVal.int 9)])⟩
        PyVal.none).1 = .ok (PyVal.dict []) ∧
    (TDBWrapConfigService.direct_update "svc" ⟨0, 1⟩ (PyVal.dict [])
        Option.none ⟨Option.none, 0, 30⟩ 50 true (.ok true)
        ⟨some ⟨0, 2⟩, some (PyVal.dict [("x", PyVal.int 9)])⟩ false id
        (PyVal.dict [])).1 =
      .error (.callError
        "svc: service version mismatch. Node: 0.1cluster: 0.2" 14 []) := by
  have h := C3_version_mismatch_reconciliation "svc" ⟨0, 1⟩ ⟨0, 2⟩
    (PyVal.dict []) [] Option.none Option.none (fun r _ _ => PyVal.list r)
    ⟨Option.none, 0, 30⟩ 50 (.ok true) (.ok "OK")
    (some (PyVal.dict [("x", PyVal.int 9)])) [] PyVal.none PyVal.none id
    (PyVal.dict []) [] {} (by decide) rfl
  exact ⟨by decide, rfl, h.1.1, h.2.2.1⟩

/-! ## Job lock-queue admission

The `@job` decorator (service.py:77-166) only records the metadata
`{'lock': ..., 'lock_queue_size': ...}`; the scheduler that interprets it
(the jobs-queue implementation in `middlewared/job.py`) is not part of
this source tree, so the admission control is modelled from the spec
(§4.2 and the `lock_queue_size` docstring at service.py:105-113). -/

/-- State of one job as relevant to lock admission. -/
inductive JobState where
  | waiting : JobState
  | running : JobState
deriving Repr, DecidableEq

/-- One job record: id, optional lock name, state. -/
structure JobRec where
  id : Nat
  lockName : Option String
  state : JobState
deriving Repr, DecidableEq

/-- One lock: current holder and FIFO wait queue of job ids. -/
structure LockState where
  holder : Option Nat
  queue : List Nat
deriving Repr, DecidableEq

/-- The scheduler's job table and lock registry. -/
structure JobsQueue where
  jobs : List JobRec
  locks : List (String × LockState)
  nextId : Nat
deriving Repr, DecidableEq

/-- Lazily created lock lookup (a never-seen key is a free lock). -/
def lockFor (q : JobsQueue) (name : String) : LockState :=
  match q.locks.find? (fun p => p.1 == name) with
  | some p => p.2
  | Option.none => ⟨Option.none, []⟩

/-- Store a lock state under its key. -/
def setLock (locks : List (String × LockState)) (name : String)
    (ls : LockState) : List (String × LockState) :=
  if locks.any (fun p => p.1 == name) then
    locks.map (fun p => if p.1 == name then (name, ls) else p)
  else locks ++ [(name, ls)]

/-- Modelled from the spec: job submission with lock admission control
(the jobs-queue scheduler of `middlewared/job.py` is not under `src/`;
only the `@job` metadata declaration is).  Per spec §4.2 and the
`lock_queue_size` docstring: no lock → the job runs immediately; free
lock → the job claims it and runs; held lock with room in the queue → a
new WAITING job is appended FIFO; held lock whose wait queue has already
reached `lock_queue_size` → **no job is created** and the id of the job
at the tail of the queue is returned (idempotent coalescing, not an
error). -/
def JobsQueue.submit (q : JobsQueue) (lockName : Option String)
    (queueSize : Option Nat) : JobsQueue × Option Nat :=
  match lockName with
  | Option.none =>
    ({ jobs := q.jobs ++ [⟨q.nextId, Option.none, .running⟩],
       locks := q.locks, nextId := q.nextId + 1 }, some q.nextId)
  | some name =>
    let ls := lockFor q name
    match ls.holder with
    | Option.none =>
      ({ jobs := q.jobs ++ [⟨q.nextId, some name, .running⟩],
         locks := setLock q.locks name ⟨some q.nextId, ls.queue⟩,
         nextId := q.nextId + 1 }, some q.nextId)
    | some _ =>
      let enqueue : JobsQueue × Option Nat :=
        ({ jobs := q.jobs ++ [⟨q.nextId, some name, .waiting⟩],
           locks := setLock q.locks name
             ⟨ls.holder, ls.queue ++ [q.nextId]⟩,
           nextId := q.nextId + 1 }, some q.nextId)
      match queueSize with
      | some n =>
        if n ≤ ls.queue.length then (q, ls.queue.getLast?)
        else enqueue
      | Option.none => enqueue

/-- **C9.** For every job-wrapped method declaring a lock with maximum
wait-queue length `n`: when the lock is held and `n` jobs are already
WAITING on it, submitting one more job for the lock creates no new job
(the whole scheduler state is unchanged) and returns the id of the job
currently at the tail of the lock's wait queue. -/
theorem C9_lock_queue_coalescing (q : JobsQueue) (name : String) (n : Nat)
    (h : Nat) (queue : List Nat) (t : Nat)
    (hlock : lockFor q name = ⟨some h, queue⟩)
    (hfull : queue.length = n) (htail : queue.getLast? = some t) :
    q.submit (some name) (some n) = (q, some t) := by
  unfold JobsQueue.submit
  simp only [hlock]
  rw [if_pos (le_of_eq hfull.symm), hlock] at *
  rw [htail]

/-- Witness for C9, the spec's concrete scenario: lock `disk:sda`, queue
size 1; job 1 holds the lock (RUNNING), job 2 is WAITING; submitting a
third job returns job 2's id and leaves the scheduler state (job table,
locks, id counter) unchanged. -/
theorem C9_lock_queue_coalescing_witness :
    (lockFor
      ⟨[⟨1, some "disk:sda", .running⟩, ⟨2, some "disk:sda", .waiting⟩],
       [("disk:sda", ⟨some 1, [2]⟩)], 3⟩ "disk:sda" =
      ⟨some 1, [2]⟩) ∧
    (([2] : List Nat).length = 1) ∧
    (([2] : List Nat).getLast? = some 2) ∧
    JobsQueue.submit
      ⟨[⟨1, some "disk:sda", .running⟩, ⟨2, some "disk:sda", .waiting⟩],
       [("disk:sda", ⟨some 1, [2]⟩)], 3⟩ (some "disk:sda") (some 1) =
      (⟨[⟨1, some "disk:sda", .running⟩, ⟨2, some "disk:sda", .waiting⟩],
        [("disk:sda", ⟨some 1, [2]⟩)], 3⟩, some 2) := by
  refine ⟨rfl, rfl, rfl, ?_⟩
  exact C9_lock_queue_coalescing
    ⟨[⟨1, some "disk:sda", .running⟩, ⟨2, some "disk:sda", .waiting⟩],
     [("disk:sda", ⟨some 1, [2]⟩)], 3⟩ "disk:sda" 1 1 [2] 2 rfl rfl rfl

/-! ## Default-payload fallback returns a fresh deep copy

The fallback branches of `TDBWrapConfigService.config` and
`TDBWrapCRUDService.query` return `copy.deepcopy(self.tdb_defaults)`
(service.py:684, 694, 701, 1378, 1389, 1396), never `self.tdb_defaults`
itself.  Object identity is modelled with an explicit heap: Python
containers (dicts/lists) are heap cells addressed by allocation index,
scalars are immediate, and `copy.deepcopy` recursively copies every
reachable cell into freshly allocated addresses.  Freshness and
non-interference of mutations are then provable statements. -/

/-- Immediate (immutable scalar) Python values. -/
inductive PAtom where
  | aNone : PAtom
  | aBool (b : Bool) : PAtom
  | aInt (n : Int) : PAtom
  | aStr (s : String) : PAtom
deriving Repr, DecidableEq

/-- A Python object reference: an immediate scalar or a pointer to a heap
cell. -/
inductive PObj where
  | atom (a : PAtom) : PObj
  | ref (addr : Nat) : PObj
deriving Repr, DecidableEq

/-- A mutable container cell on the heap. -/
inductive PCell where
  | cDict (fields : List (String × PObj)) : PCell
  | cList (elems : List PObj) : PCell
deriving Repr, DecidableEq

/-- The heap: cell at address `a` is entry `a`; allocation appends. -/
abbrev Heap := List PCell

/-- The pure (identity-free) value tree read off an object, used to
compare what two reads observe. -/
inductive PTree where
  | atom (a : PAtom) : PTree
  | tDict (fields : List (String × PTree)) : PTree
  | tList (elems : List PTree) : PTree
deriving Repr

mutual

/-- `copy.deepcopy` on an object: scalars are immediate, a reference is
resolved and its cell recursively copied into a freshly allocated
address.  `fuel` bounds the recursion depth (`none` = fuel exhausted or
dangling reference). -/
def deepcopyObj : Nat → Heap → PObj → Option (Heap × PObj)
  | _, h, .atom a => some (h, .atom a)
  | 0, _, .ref _ => Option.none
  | (n + 1), h, .ref a =>
    match h[a]? with
    | Option.none => Option.none
    | some (.cDict fields) =>
      match deepcopyFields n h fields with
      | Option.none => Option.none
      | some (h1, fields1) =>
        some (h1 ++ [.cDict fields1], .ref h1.length)
    | some (.cList elems) =>
      match deepcopyElems n h elems with
      | Option.none => Option.none
      | some (h1, elems1) =>
        some (h1 ++ [.cList elems1], .ref h1.length)
termination_by n _ _ => (n, 0)

/-- Deep copy of a dict's bindings, left to right. -/
def deepcopyFields : Nat → Heap → List (String × PObj) →
    Option (Heap × List (String × PObj))
  | _, h, [] => some (h, [])
  | n, h, (key, v) :: rest =>
    match deepcopyObj n h v with
    | Option.none => Option.none
    | some (h1, v1) =>
      match deepcopyFields n h1 rest with
      | Option.none => Option.none
      | some (h2, rest1) => some (h2, (key, v1) :: rest1)
termination_by n _ l => (n, l.length + 1)

/-- Deep copy of a list's elements, left to right. -/
def deepcopyElems : Nat → Heap → List PObj → Option (Heap × List PObj)
  | _, h, [] => some (h, [])
  | n, h, v :: rest =>
    match deepcopyObj n h v with
    | Option.none => Option.none
    | some (h1, v1) =>
      match deepcopyElems n h1 rest with
      | Option.none => Option.none
      | some (h2, rest1) => some (h2, v1 :: rest1)
termination_by n _ l => (n, l.length + 1)

end

mutual

/-- Read the value tree an object denotes in a heap (what Python sees
when it walks the structure). -/
def readObj : Nat → Heap → PObj → Option PTree
  | _, _, .atom a => some (.atom a)
  | 0, _, .ref _ => Option.none
  | (n + 1), h, .ref a =>
    match h[a]? with
    | Option.none => Option.none
    | some (.cDict fields) => (readFields n h fields).map PTree.tDict
    | some (.cList elems) => (readElems n h elems).map PTree.tList
termination_by n _ _ => (n, 0)

/-- Read a dict's bindings. -/
def readFields : Nat → Heap → List (String × PObj) →
    Option (List (String × PTree))
  | _, _, [] => some []
  | n, h, (key, v) :: rest =>
    match readObj n h v with
    | Option.none => Option.none
    | some t =>
      match readFields n h rest with
      | Option.none => Option.none
      | some rest1 => some ((key, t) :: rest1)
termination_by n _ l => (n, l.length + 1)

/-- Read a list's elements. -/
def readElems : Nat → Heap → List PObj → Option (List PTree)
  | _, _, [] => some []
  | n, h, v :: rest =>
    match readObj n h v with
    | Option.none => Option.none
    | some t =>
      match readElems n h rest with
      | Option.none => Option.none
      | some rest1 => some (t :: rest1)
termination_by n _ l => (n, l.length + 1)

end

/-- All references of an object point below `k`. -/
def objLow (k : Nat) : PObj → Prop
  | .atom _ => True
  | .ref a => a < k

/-- All references of a cell point below `k`. -/
def cellLow (k : Nat) : PCell → Prop
  | .cDict fields => ∀ p ∈ fields, objLow k p.2
  | .cList elems => ∀ v ∈ elems, objLow k v

/-- A closed heap: every cell's references are in bounds. -/
def heapClosed (h : Heap) : Prop :=
  ∀ (a : Nat) (c : PCell), h[a]? = some c → cellLow h.length c

/-- All references of an object point at or above `k`. -/
def objHigh (k : Nat) : PObj → Prop
  | .atom _ => True
  | .ref a => k ≤ a

/-- All references of a cell point at or above `k`. -/
def cellHigh (k : Nat) : PCell → Prop
  | .cDict fields => ∀ p ∈ fields, objHigh k p.2
  | .cList elems => ∀ v ∈ elems, objHigh k v

/-- The region at and above `k` is self-contained: its cells reference
only addresses at or above `k`. -/
def regionHigh (k : Nat) (h : Heap) : Prop :=
  ∀ (a : Nat) (c : PCell), k ≤ a → h[a]? = some c → cellHigh k c

/-- A successful cell lookup is in bounds. -/
theorem lookup_lt {h : Heap} {a : Nat} {c : PCell} (hc : h[a]? = some c) :
    a < h.length := by
  by_contra hna
  rw [List.getElem?_eq_none (Nat.le_of_not_lt hna)] at hc
  cases hc

/-- Extending the heap preserves lookups of existing addresses. -/
theorem lookup_append {h t : Heap} {a : Nat} (ha : a < h.length) :
    (h ++ t)[a]? = h[a]? :=
  List.getElem?_append_left ha

/-- `deepcopyFields` only ever allocates, given that `deepcopyObj` at the
same fuel does. -/
theorem deepcopyFields_extends_aux (n : Nat)
    (hobj : ∀ h v out, deepcopyObj n h v = some out → h <+: out.1) :
    ∀ (fs : List (String × PObj)) (h : Heap) out,
      deepcopyFields n h fs = some out → h <+: out.1 := by
  intro fs
  induction fs with
  | nil =>
    intro h out heq
    simp only [deepcopyFields, Option.some.injEq] at heq
    exact heq ▸ List.prefix_rfl
  | cons p rest ih =>
    rcases p with ⟨key, v⟩
    intro h out heq
    cases hv : deepcopyObj n h v with
    | none => simp [deepcopyFields, hv] at heq
    | some o1 =>
      rcases o1 with ⟨h1, v1⟩
      cases hr : deepcopyFields n h1 rest with
      | none => simp [deepcopyFields, hv, hr] at heq
      | some o2 =>
        rcases o2 with ⟨h2, rest1⟩
        simp only [deepcopyFields, hv, hr, Option.some.injEq] at heq
        subst heq
        exact (hobj h v (h1, v1) hv).trans (ih h1 (h2, rest1) hr)

/-- `deepcopyElems` only ever allocates, given that `deepcopyObj` at the
same fuel does. -/
theorem deepcopyElems_extends_aux (n : Nat)
    (hobj : ∀ h v out, deepcopyObj n h v = some out → h <+: out.1) :
    ∀ (es : List PObj) (h : Heap) out,
      deepcopyElems n h es = some out → h <+: out.1 := by
  intro es
  induction es with
  | nil =>
    intro h out heq
    simp only [deepcopyElems, Option.some.injEq] at heq
    exact heq ▸ List.prefix_rfl
  | cons v rest ih =>
    intro h out heq
    cases hv : deepcopyObj n h v with
    | none => simp [deepcopyElems, hv] at heq
    | some o1 =>
      rcases o1 with ⟨h1, v1⟩
      cases hr : deepcopyElems n h1 rest with
      | none => simp [deepcopyElems, hv, hr] at heq
      | some o2 =>
        rcases o2 with ⟨h2, rest1⟩
        simp only [deepcopyElems, hv, hr, Option.some.injEq] at heq
        subst heq
        exact (hobj h v (h1, v1) hv).trans (ih h1 (h2, rest1) hr)

/-- `copy.deepcopy` only allocates: the result heap extends the input
heap. -/
theorem deepcopyObj_extends :
    ∀ (n : Nat) (h : Heap) (v : PObj) out,
      deepcopyObj n h v = some out → h <+: out.1 := by
  intro n
  induction n with
  | zero =>
    intro h v out heq
    cases v with
    | atom a =>
      simp only [deepcopyObj, Option.some.injEq] at heq
      exact heq ▸ List.prefix_rfl
    | ref a => simp [deepcopyObj] at heq
  | succ n ihn =>
    intro h v out heq
    cases v with
    | atom a =>
      simp only [deepcopyObj, Option.some.injEq] at heq
      exact heq ▸ List.prefix_rfl
    | ref a =>
      cases hla : h[a]? with
      | none => simp [deepcopyObj, hla] at heq
      | some c =>
        cases c with
        | cDict fields =>
          cases hf : deepcopyFields n h fields with
          | none => simp [deepcopyObj, hla, hf] at heq
          | some o1 =>
            rcases o1 with ⟨h1, fs1⟩
            simp only [deepcopyObj, hla, hf, Option.some.injEq] at heq
            subst heq
            exact (deepcopyFields_extends_aux n ihn fields h (h1, fs1)
              hf).trans (List.prefix_append _ _)
        | cList elems =>
          cases he : deepcopyElems n h elems with
          | none => simp [deepcopyObj, hla, he] at heq
          | some o1 =>
            rcases o1 with ⟨h1, es1⟩
            simp only [deepcopyObj, hla, he, Option.some.injEq] at heq
            subst heq
            exact (deepcopyElems_extends_aux n ihn elems h (h1, es1)
              he).trans (List.prefix_append _ _)

/-- `deepcopyFields` extends the heap. -/
theorem deepcopyFields_extends (n : Nat) (fs : List (String × PObj))
    (h : Heap) (out : Heap × List (String × PObj))
    (heq : deepcopyFields n h fs = some out) : h <+: out.1 :=
  deepcopyFields_extends_aux n (deepcopyObj_extends n) fs h out heq

/-- `deepcopyElems` extends the heap. -/
theorem deepcopyElems_extends (n : Nat) (es : List PObj) (h : Heap)
    (out : Heap × List PObj) (heq : deepcopyElems n h es = some out) :
    h <+: out.1 :=
  deepcopyElems_extends_aux n (deepcopyObj_extends n) es h out heq

/-- `objLow` is monotone in the bound. -/
theorem objLow_mono {k k' : Nat} (hkk : k ≤ k') :
    ∀ v, objLow k v → objLow k' v := by
  intro v hv
  cases v with
  | atom a => trivial
  | ref a => exact Nat.lt_of_lt_of_le hv hkk

/-- `cellLow` is monotone in the bound. -/
theorem cellLow_mono {k k' : Nat} (hkk : k ≤ k') :
    ∀ c, cellLow k c → cellLow k' c := by
  intro c hc
  cases c with
  | cDict fields => exact fun p hp => objLow_mono hkk _ (hc p hp)
  | cList elems => exact fun v hv => objLow_mono hkk _ (hc v hv)

/-- Two heaps agreeing below `k` (with the low region closed) yield the
same dict reads for low bindings, assuming the same for single
objects. -/
theorem readFields_agree_aux (n : Nat)
    (hobj : ∀ (h1 h2 : Heap) (k : Nat) (v : PObj),
      (∀ a : Nat, a < k → h1[a]? = h2[a]?) →
      (∀ (a : Nat) (c : PCell), a < k → h1[a]? = some c → cellLow k c) →
      objLow k v → readObj n h1 v = readObj n h2 v) :
    ∀ (fs : List (String × PObj)) (h1 h2 : Heap) (k : Nat),
      (∀ a : Nat, a < k → h1[a]? = h2[a]?) →
      (∀ (a : Nat) (c : PCell), a < k → h1[a]? = some c → cellLow k c) →
      (∀ p ∈ fs, objLow k p.2) →
      readFields n h1 fs = readFields n h2 fs := by
  intro fs
  induction fs with
  | nil => intros; simp [readFields]
  | cons p rest ih =>
    rcases p with ⟨key, v⟩
    intro h1 h2 k hag hcl hlow
    have hv : readObj n h1 v = readObj n h2 v :=
      hobj h1 h2 k v hag hcl (hlow (key, v) (List.mem_cons_self _ _))
    have hrest := ih h1 h2 k hag hcl
      (fun p hp => hlow p (List.mem_cons_of_mem _ hp))
    simp only [readFields, hv, hrest]

/-- List-element analogue of `readFields_agree_aux`. -/
theorem readElems_agree_aux (n : Nat)
    (hobj : ∀ (h1 h2 : Heap) (k : Nat) (v : PObj),
      (∀ a : Nat, a < k → h1[a]? = h2[a]?) →
      (∀ (a : Nat) (c : PCell), a < k → h1[a]? = some c → cellLow k c) →
      objLow k v → readObj n h1 v = readObj n h2 v) :
    ∀ (es : List PObj) (h1 h2 : Heap) (k : Nat),
      (∀ a : Nat, a < k → h1[a]? = h2[a]?) →
      (∀ (a : Nat) (c : PCell), a < k → h1[a]? = some c → cellLow k c) →
      (∀ v ∈ es, objLow k v) →
      readElems n h1 es = readElems n h2 es := by
  intro es
  induction es with
  | nil => intros; simp [readElems]
  | cons v rest ih =>
    intro h1 h2 k hag hcl hlow
    have hv : readObj n h1 v = readObj n h2 v :=
      hobj h1 h2 k v hag hcl (hlow v (List.mem_cons_self _ _))
    have hrest := ih h1 h2 k hag hcl
      (fun w hw => hlow w (List.mem_cons_of_mem _ hw))
    simp only [readElems, hv, hrest]

/-- Reads of an object confined to a closed region below `k` see only
that region: any two heaps agreeing below `k` read the same value. -/
theorem readObj_agree :
    ∀ (n : Nat) (h1 h2 : Heap) (k : Nat) (v : PObj),
      (∀ a : Nat, a < k → h1[a]? = h2[a]?) →
      (∀ (a : Nat) (c : PCell), a < k → h1[a]? = some c → cellLow k c) →
      objLow k v → readObj n h1 v = readObj n h2 v := by
  intro n
  induction n with
  | zero =>
    intro h1 h2 k v hag hcl hlow
    cases v with
    | atom a => simp [readObj]
    | ref a => simp [readObj]
  | succ n ihn =>
    intro h1 h2 k v hag hcl hlow
    cases v with
    | atom a => simp [readObj]
    | ref a =>
      have ha : a < k := hlow
      have heq := hag a ha
      cases hla : h1[a]? with
      | none =>
        have hla2 : h2[a]? = Option.none := heq ▸ hla
        simp [readObj, hla, hla2]
      | some c =>
        have hla2 : h2[a]? = some c := heq ▸ hla
        have hcell : cellLow k c := hcl a c ha hla
        cases c with
        | cDict fields =>
          have hf := readFields_agree_aux n ihn fields h1 h2 k hag hcl hcell
          simp [readObj, hla, hla2, hf]
        | cList elems =>
          have he := readElems_agree_aux n ihn elems h1 h2 k hag hcl hcell
          simp [readObj, hla, hla2, he]

/-- Fields version of `readObj_agree`. -/
theorem readFields_agree (n : Nat) (fs : List (String × PObj))
    (h1 h2 : Heap) (k : Nat)
    (hag : ∀ a : Nat, a < k → h1[a]? = h2[a]?)
    (hcl : ∀ (a : Nat) (c : PCell), a < k → h1[a]? = some c → cellLow k c)
    (hlow : ∀ p ∈ fs, objLow k p.2) :
    readFields n h1 fs = readFields n h2 fs :=
  readFields_agree_aux n (readObj_agree n) fs h1 h2 k hag hcl hlow

/-- Elements version of `readObj_agree`. -/
theorem readElems_agree (n : Nat) (es : List PObj) (h1 h2 : Heap)
    (k : Nat) (hag : ∀ a : Nat, a < k → h1[a]? = h2[a]?)
    (hcl : ∀ (a : Nat) (c : PCell), a < k → h1[a]? = some c → cellLow k c)
    (hlow : ∀ v ∈ es, objLow k v) :
    readElems n h1 es = readElems n h2 es :=
  readElems_agree_aux n (readObj_agree n) es h1 h2 k hag hcl hlow

/-- Appending one cell whose references are in bounds keeps a heap
closed. -/
theorem heapClosed_concat {h : Heap} {c : PCell} (hh : heapClosed h)
    (hc : cellLow (h.length + 1) c) : heapClosed (h ++ [c]) := by
  intro a c' hac
  rcases Nat.lt_trichotomy a h.length with hlt | heq | hgt
  · rw [lookup_append hlt] at hac
    have := hh a c' hac
    refine cellLow_mono ?_ _ this
    simp [List.length_append]
  · subst heq
    rw [List.getElem?_concat_length] at hac
    cases hac
    simpa [List.length_append] using hc
  · have hle : (h ++ [c]).length ≤ a := by
      simp only [List.length_append, List.length_cons, List.length_nil]
      omega
    rw [List.getElem?_eq_none hle] at hac
    cases hac

/-- `deepcopyFields` keeps the heap closed and produces in-bounds
objects, given that `deepcopyObj` at the same fuel does. -/
theorem deepcopyFields_closed_aux (n : Nat)
    (hobj : ∀ h v out, heapClosed h → deepcopyObj n h v = some out →
      heapClosed out.1 ∧ objLow out.1.length out.2) :
    ∀ (fs : List (String × PObj)) (h : Heap) out, heapClosed h →
      deepcopyFields n h fs = some out →
      heapClosed out.1 ∧ ∀ p ∈ out.2, objLow out.1.length p.2 := by
  intro fs
  induction fs with
  | nil =>
    intro h out hh heq
    simp only [deepcopyFields, Option.some.injEq] at heq
    subst heq
    exact ⟨hh, by simp⟩
  | cons p rest ih =>
    rcases p with ⟨key, v⟩
    intro h out hh heq
    cases hv : deepcopyObj n h v with
    | none => simp [deepcopyFields, hv] at heq
    | some o1 =>
      rcases o1 with ⟨h1, v1⟩
      cases hr : deepcopyFields n h1 rest with
      | none => simp [deepcopyFields, hv, hr] at heq
      | some o2 =>
        rcases o2 with ⟨h2, rest1⟩
        simp only [deepcopyFields, hv, hr, Option.some.injEq] at heq
        subst heq
        obtain ⟨hh1, hv1⟩ := hobj h v (h1, v1) hh hv
        obtain ⟨hh2, hrest1⟩ := ih h1 (h2, rest1) hh1 hr
        have h12 : h1.length ≤ h2.length :=
          (deepcopyFields_extends n rest h1 (h2, rest1) hr).length_le
        refine ⟨hh2, ?_⟩
        intro p hp
        rcases List.mem_cons.mp hp with rfl | hp'
        · exact objLow_mono h12 _ hv1
        · exact hrest1 p hp'

/-- List-element analogue of `deepcopyFields_closed_aux`. -/
theorem deepcopyElems_closed_aux (n : Nat)
    (hobj : ∀ h v out, heapClosed h → deepcopyObj n h v = some out →
      heapClosed out.1 ∧ objLow out.1.length out.2) :
    ∀ (es : List PObj) (h : Heap) out, heapClosed h →
      deepcopyElems n h es = some out →
      heapClosed out.1 ∧ ∀ v ∈ out.2, objLow out.1.length v := by
  intro es
  induction es with
  | nil =>
    intro h out hh heq
    simp only [deepcopyElems, Option.some.injEq] at heq
    subst heq
    exact ⟨hh, by simp⟩
  | cons v rest ih =>
    intro h out hh heq
    cases hv : deepcopyObj n h v with
    | none => simp [deepcopyElems, hv] at heq
    | some o1 =>
      rcases o1 with ⟨h1, v1⟩
      cases hr : deepcopyElems n h1 rest with
      | none => simp [deepcopyElems, hv, hr] at heq
      | some o2 =>
        rcases o2 with ⟨h2, rest1⟩
        simp only [deepcopyElems, hv, hr, Option.some.injEq] at heq
        subst heq
        obtain ⟨hh1, hv1⟩ := hobj h v (h1, v1) hh hv
        obtain ⟨hh2, hrest1⟩ := ih h1 (h2, rest1) hh1 hr
        have h12 : h1.length ≤ h2.length :=
          (deepcopyElems_extends n rest h1 (h2, rest1) hr).length_le
        refine ⟨hh2, ?_⟩
        intro w hw
        rcases List.mem_cons.mp hw with rfl | hw'
        · exact objLow_mono h12 _ hv1
        · exact hrest1 w hw'

/-- `copy.deepcopy` keeps the heap closed and returns an in-bounds
object. -/
theorem deepcopyObj_closed :
    ∀ (n : Nat) (h : Heap) (v : PObj) out, heapClosed h →
      deepcopyObj n h v = some out →
      heapClosed out.1 ∧ objLow out.1.length out.2 := by
  intro n
  induction n with
  | zero =>
    intro h v out hh heq
    cases v with
    | atom a =>
      simp only [deepcopyObj, Option.some.injEq] at heq
      subst heq
      exact ⟨hh, trivial⟩
    | ref a => simp [deepcopyObj] at heq
  | succ n ihn =>
    intro h v out hh heq
    cases v with
    | atom a =>
      simp only [deepcopyObj, Option.some.injEq] at heq
      subst heq
      exact ⟨hh, trivial⟩
    | ref a =>
      cases hla : h[a]? with
      | none => simp [deepcopyObj, hla] at heq
      | some c =>
        cases c with
        | cDict fields =>
          cases hf : deepcopyFields n h fields with
          | none => simp [deepcopyObj, hla, hf] at heq
          | some o1 =>
            rcases o1 with ⟨h1, fs1⟩
            simp only [deepcopyObj, hla, hf, Option.some.injEq] at heq
            subst heq
            obtain ⟨hh1, hfs1⟩ := deepcopyFields_closed_aux n ihn fields h
              (h1, fs1) hh hf
            constructor
            · exact heapClosed_concat hh1
                (fun p hp => objLow_mono (Nat.le_succ _) _ (hfs1 p hp))
            · simp only [objLow, List.length_append, List.length_cons,
                List.length_nil]
              omega
        | cList elems =>
          cases he : deepcopyElems n h elems with
          | none => simp [deepcopyObj, hla, he] at heq
          | some o1 =>
            rcases o1 with ⟨h1, es1⟩
            simp only [deepcopyObj, hla, he, Option.some.injEq] at heq
            subst heq
            obtain ⟨hh1, hes1⟩ := deepcopyElems_closed_aux n ihn elems h
              (h1, es1) hh he
            constructor
            · exact heapClosed_concat hh1
                (fun w hw => objLow_mono (Nat.le_succ _) _ (hes1 w hw))
            · simp only [objLow, List.length_append, List.length_cons,
                List.length_nil]
              omega

/-- Appending a cell referencing only the high region keeps that region
self-contained. -/
theorem regionHigh_concat {k : Nat} {h : Heap} {c : PCell}
    (hr : regionHigh k h) (hc : cellHigh k c) : regionHigh k (h ++ [c]) := by
  intro a c' hka hac
  rcases Nat.lt_trichotomy a h.length with hlt | heq | hgt
  · rw [lookup_append hlt] at hac
    exact hr a c' hka hac
  · subst heq
    rw [List.getElem?_concat_length] at hac
    cases hac
    exact hc
  · have hle : (h ++ [c]).length ≤ a := by
      simp only [List.length_append, List.length_cons, List.length_nil]
      omega
    rw [List.getElem?_eq_none hle] at hac
    cases hac

/-- `deepcopyFields` allocates only into the self-contained high region,
given that `deepcopyObj` at the same fuel does. -/
theorem deepcopyFields_fresh_aux (n : Nat)
    (hobj : ∀ h v out (k : Nat), k ≤ h.length → regionHigh k h →
      deepcopyObj n h v = some out → regionHigh k out.1 ∧ objHigh k out.2) :
    ∀ (fs : List (String × PObj)) (h : Heap) out (k : Nat),
      k ≤ h.length → regionHigh k h → deepcopyFields n h fs = some out →
      regionHigh k out.1 ∧ ∀ p ∈ out.2, objHigh k p.2 := by
  intro fs
  induction fs with
  | nil =>
    intro h out k hk hr heq
    simp only [deepcopyFields, Option.some.injEq] at heq
    subst heq
    exact ⟨hr, by simp⟩
  | cons p rest ih =>
    rcases p with ⟨key, v⟩
    intro h out k hk hr heq
    cases hv : deepcopyObj n h v with
    | none => simp [deepcopyFields, hv] at heq
    | some o1 =>
      rcases o1 with ⟨h1, v1⟩
      cases hrr : deepcopyFields n h1 rest with
      | none => simp [deepcopyFields, hv, hrr] at heq
      | some o2 =>
        rcases o2 with ⟨h2, rest1⟩
        simp only [deepcopyFields, hv, hrr, Option.some.injEq] at heq
        subst heq
        obtain ⟨hr1, hv1⟩ := hobj h v (h1, v1) k hk hr hv
        have hk1 : k ≤ h1.length :=
          hk.trans (deepcopyObj_extends n h v (h1, v1) hv).length_le
        obtain ⟨hr2, hrest1⟩ := ih h1 (h2, rest1) k hk1 hr1 hrr
        refine ⟨hr2, ?_⟩
        intro p hp
        rcases List.mem_cons.mp hp with rfl | hp'
        · exact hv1
        · exact hrest1 p hp'

/-- List-element analogue of `deepcopyFields_fresh_aux`. -/
theorem deepcopyElems_fresh_aux (n : Nat)
    (hobj : ∀ h v out (k : Nat), k ≤ h.length → regionHigh k h →
      deepcopyObj n h v = some out → regionHigh k out.1 ∧ objHigh k out.2) :
    ∀ (es : List PObj) (h : Heap) out (k : Nat),
      k ≤ h.length → regionHigh k h → deepcopyElems n h es = some out →
      regionHigh k out.1 ∧ ∀ v ∈ out.2, objHigh k v := by
  intro es
  induction es with
  | nil =>
    intro h out k hk hr heq
    simp only [deepcopyElems, Option.some.injEq] at heq
    subst heq
    exact ⟨hr, by simp⟩
  | cons v rest ih =>
    intro h out k hk hr heq
    cases hv : deepcopyObj n h v with
    | none => simp [deepcopyElems, hv] at heq
    | some o1 =>
      rcases o1 with ⟨h1, v1⟩
      cases hrr : deepcopyElems n h1 rest with
      | none => simp [deepcopyElems, hv, hrr] at heq
      | some o2 =>
        rcases o2 with ⟨h2, rest1⟩
        simp only [deepcopyElems, hv, hrr, Option.some.injEq] at heq
        subst heq
        obtain ⟨hr1, hv1⟩ := hobj h v (h1, v1) k hk hr hv
        have hk1 : k ≤ h1.length :=
          hk.trans (deepcopyObj_extends n h v (h1, v1) hv).length_le
        obtain ⟨hr2, hrest1⟩ := ih h1 (h2, rest1) k hk1 hr1 hrr
        refine ⟨hr2, ?_⟩
        intro w hw
        rcases List.mem_cons.mp hw with rfl | hw'
        · exact hv1
        · exact hrest1 w hw'

/-- Freshness of `copy.deepcopy`: everything it allocates lives at or
above `k` and references only that region, and the returned object
points only there. -/
theorem deepcopyObj_fresh :
    ∀ (n : Nat) (h : Heap) (v : PObj) out (k : Nat), k ≤ h.length →
      regionHigh k h → deepcopyObj n h v = some out →
      regionHigh k out.1 ∧ objHigh k out.2 := by
  intro n
  induction n with
  | zero =>
    intro h v out k hk hr heq
    cases v with
    | atom a =>
      simp only [deepcopyObj, Option.some.injEq] at heq
      subst heq
      exact ⟨hr, trivial⟩
    | ref a => simp [deepcopyObj] at heq
  | succ n ihn =>
    intro h v out k hk hr heq
    cases v with
    | atom a =>
      simp only [deepcopyObj, Option.some.injEq] at heq
      subst heq
      exact ⟨hr, trivial⟩
    | ref a =>
      cases hla : h[a]? with
      | none => simp [deepcopyObj, hla] at heq
      | some c =>
        cases c with
        | cDict fields =>
          cases hf : deepcopyFields n h fields with
          | none => simp [deepcopyObj, hla, hf] at heq
          | some o1 =>
            rcases o1 with ⟨h1, fs1⟩
            simp only [deepcopyObj, hla, hf, Option.some.injEq] at heq
            subst heq
            obtain ⟨hr1, hfs1⟩ := deepcopyFields_fresh_aux n ihn fields h
              (h1, fs1) k hk hr hf
            refine ⟨regionHigh_concat hr1 hfs1, ?_⟩
            exact hk.trans
              (deepcopyFields_extends n fields h (h1, fs1) hf).length_le
        | cList elems =>
          cases he : deepcopyElems n h elems with
          | none => simp [deepcopyObj, hla, he] at heq
          | some o1 =>
            rcases o1 with ⟨h1, es1⟩
            simp only [deepcopyObj, hla, he, Option.some.injEq] at heq
            subst heq
            obtain ⟨hr1, hes1⟩ := deepcopyElems_fresh_aux n ihn elems h
              (h1, es1) k hk hr he
            refine ⟨regionHigh_concat hr1 hes1, ?_⟩
            exact hk.trans
              (deepcopyElems_extends n elems h (h1, es1) he).length_le

/-- A reference `deepcopy` succeeds on is in bounds. -/
theorem deepcopyObj_low_input {n : Nat} {h : Heap} {v : PObj} {out}
    (heq : deepcopyObj n h v = some out) : objLow h.length v := by
  cases v with
  | atom a => trivial
  | ref a =>
    cases n with
    | zero => simp [deepcopyObj] at heq
    | succ n =>
      cases hla : h[a]? with
      | none => simp [deepcopyObj, hla] at heq
      | some c => exact lookup_lt hla

/-- Reading in an extension of the heap agrees on objects confined to the
closed original heap. -/
theorem readObj_extend_of_closed {m : Nat} {h h' : Heap} {v : PObj}
    (hpre : h <+: h') (hh : heapClosed h) (hlow : objLow h.length v) :
    readObj m h' v = readObj m h v := by
  obtain ⟨t, rfl⟩ := hpre
  exact readObj_agree m (h ++ t) h h.length v
    (fun a ha => lookup_append ha)
    (fun a c ha hac => hh a c (by rwa [lookup_append ha] at hac))
    hlow

/-- Fields version of `readObj_extend_of_closed`. -/
theorem readFields_extend_of_closed {m : Nat} {h h' : Heap}
    {fs : List (String × PObj)} (hpre : h <+: h') (hh : heapClosed h)
    (hlow : ∀ p ∈ fs, objLow h.length p.2) :
    readFields m h' fs = readFields m h fs := by
  obtain ⟨t, rfl⟩ := hpre
  exact readFields_agree m fs (h ++ t) h h.length
    (fun a ha => lookup_append ha)
    (fun a c ha hac => hh a c (by rwa [lookup_append ha] at hac))
    hlow

/-- Elements version of `readObj_extend_of_closed`. -/
theorem readElems_extend_of_closed {m : Nat} {h h' : Heap}
    {es : List PObj} (hpre : h <+: h') (hh : heapClosed h)
    (hlow : ∀ v ∈ es, objLow h.length v) :
    readElems m h' es = readElems m h es := by
  obtain ⟨t, rfl⟩ := hpre
  exact readElems_agree m es (h ++ t) h h.length
    (fun a ha => lookup_append ha)
    (fun a c ha hac => hh a c (by rwa [lookup_append ha] at hac))
    hlow

/-- Dict bindings copied from a closed heap read as the originals, given
that copied single objects do. -/
theorem deepcopyFields_read_aux (n : Nat)
    (hobj : ∀ h v out, heapClosed h → deepcopyObj n h v = some out →
      ∀ m, readObj m out.1 out.2 = readObj m h v) :
    ∀ (fs : List (String × PObj)) (h : Heap) out, heapClosed h →
      (∀ p ∈ fs, objLow h.length p.2) →
      deepcopyFields n h fs = some out →
      ∀ m, readFields m out.1 out.2 = readFields m h fs := by
  intro fs
  induction fs with
  | nil =>
    intro h out hh hlow heq m
    simp only [deepcopyFields, Option.some.injEq] at heq
    subst heq
    rfl
  | cons p rest ih =>
    rcases p with ⟨key, v⟩
    intro h out hh hlow heq m
    cases hv : deepcopyObj n h v with
    | none => simp [deepcopyFields, hv] at heq
    | some o1 =>
      rcases o1 with ⟨h1, v1⟩
      cases hr : deepcopyFields n h1 rest with
      | none => simp [deepcopyFields, hv, hr] at heq
      | some o2 =>
        rcases o2 with ⟨h2, rest1⟩
        simp only [deepcopyFields, hv, hr, Option.some.injEq] at heq
        subst heq
        obtain ⟨hh1, hv1low⟩ := deepcopyObj_closed n h v (h1, v1) hh hv
        have hext1 : h <+: h1 := deepcopyObj_extends n h v (h1, v1) hv
        have hext2 : h1 <+: h2 := deepcopyFields_extends n rest h1
          (h2, rest1) hr
        have hlowrest : ∀ p ∈ rest, objLow h1.length p.2 := fun p hp =>
          objLow_mono hext1.length_le _
            (hlow p (List.mem_cons_of_mem _ hp))
        have e1 : readObj m h2 v1 = readObj m h v :=
          (readObj_extend_of_closed hext2 hh1 hv1low).trans
            (hobj h v (h1, v1) hh hv m)
        have e2 : readFields m h2 rest1 = readFields m h rest :=
          (ih h1 (h2, rest1) hh1 hlowrest hr m).trans
            (readFields_extend_of_closed hext1 hh
              (fun p hp => hlow p (List.mem_cons_of_mem _ hp)))
        simp only [readFields, e1, e2]

/-- List-element analogue of `deepcopyFields_read_aux`. -/
theorem deepcopyElems_read_aux (n : Nat)
    (hobj : ∀ h v out, heapClosed h → deepcopyObj n h v = some out →
      ∀ m, readObj m out.1 out.2 = readObj m h v) :
    ∀ (es : List PObj) (h : Heap) out, heapClosed h →
      (∀ v ∈ es, objLow h.length v) →
      deepcopyElems n h es = some out →
      ∀ m, readElems m out.1 out.2 = readElems m h es := by
  intro es
  induction es with
  | nil =>
    intro h out hh hlow heq m
    simp only [deepcopyElems, Option.some.injEq] at heq
    subst heq
    rfl
  | cons v rest ih =>
    intro h out hh hlow heq m
    cases hv : deepcopyObj n h v with
    | none => simp [deepcopyElems, hv] at heq
    | some o1 =>
      rcases o1 with ⟨h1, v1⟩
      cases hr : deepcopyElems n h1 rest with
      | none => simp [deepcopyElems, hv, hr] at heq
      | some o2 =>
        rcases o2 with ⟨h2, rest1⟩
        simp only [deepcopyElems, hv, hr, Option.some.injEq] at heq
        subst heq
        obtain ⟨hh1, hv1low⟩ := deepcopyObj_closed n h v (h1, v1) hh hv
        have hext1 : h <+: h1 := deepcopyObj_extends n h v (h1, v1) hv
        have hext2 : h1 <+: h2 := deepcopyElems_extends n rest h1
          (h2, rest1) hr
        have hlowrest : ∀ w ∈ rest, objLow h1.length w := fun w hw =>
          objLow_mono hext1.length_le _
            (hlow w (List.mem_cons_of_mem _ hw))
        have e1 : readObj m h2 v1 = readObj m h v :=
          (readObj_extend_of_closed hext2 hh1 hv1low).trans
            (hobj h v (h1, v1) hh hv m)
        have e2 : readElems m h2 rest1 = readElems m h rest :=
          (ih h1 (h2, rest1) hh1 hlowrest hr m).trans
            (readElems_extend_of_closed hext1 hh
              (fun w hw => hlow w (List.mem_cons_of_mem _ hw)))
        simp only [readElems, e1, e2]

/-- `copy.deepcopy` is value-preserving: the copy reads as the original
did, at every fuel. -/
theorem deepcopyObj_read :
    ∀ (n : Nat) (h : Heap) (v : PObj) out, heapClosed h →
      deepcopyObj n h v = some out →
      ∀ m, readObj m out.1 out.2 = readObj m h v := by
  intro n
  induction n with
  | zero =>
    intro h v out hh heq m
    cases v with
    | atom a =>
      simp only [deepcopyObj, Option.some.injEq] at heq
      subst heq
      rfl
    | ref a => simp [deepcopyObj] at heq
  | succ n ihn =>
    intro h v out hh heq m
    cases v with
    | atom a =>
      simp only [deepcopyObj, Option.some.injEq] at heq
      subst heq
      rfl
    | ref a =>
      cases hla : h[a]? with
      | none => simp [deepcopyObj, hla] at heq
      | some c =>
        cases c with
        | cDict fields =>
          cases hf : deepcopyFields n h fields with
          | none => simp [deepcopyObj, hla, hf] at heq
          | some o1 =>
            rcases o1 with ⟨h1, fs1⟩
            simp only [deepcopyObj, hla, hf, Option.some.injEq] at heq
            subst heq
            have hfieldsLow : ∀ p ∈ fields, objLow h.length p.2 :=
              hh a _ hla
            obtain ⟨hh1, hfs1low⟩ := deepcopyFields_closed_aux n
              (fun h v out => deepcopyObj_closed n h v out) fields h
              (h1, fs1) hh hf
            have hfread := deepcopyFields_read_aux n ihn fields h
              (h1, fs1) hh hfieldsLow hf
            cases m with
            | zero => simp [readObj]
            | succ m =>
              have e1 : readFields m (h1 ++ [PCell.cDict fs1]) fs1 =
                  readFields m h1 fs1 :=
                readFields_extend_of_closed (List.prefix_append _ _) hh1
                  hfs1low
              simp only [readObj, List.getElem?_concat_length, hla, e1,
                hfread m]
        | cList elems =>
          cases he : deepcopyElems n h elems with
          | none => simp [deepcopyObj, hla, he] at heq
          | some o1 =>
            rcases o1 with ⟨h1, es1⟩
            simp only [deepcopyObj, hla, he, Option.some.injEq] at heq
            subst heq
            have helemsLow : ∀ v ∈ elems, objLow h.length v := hh a _ hla
            obtain ⟨hh1, hes1low⟩ := deepcopyElems_closed_aux n
              (fun h v out => deepcopyObj_closed n h v out) elems h
              (h1, es1) hh he
            have heread := deepcopyElems_read_aux n ihn elems h (h1, es1)
              hh helemsLow he
            cases m with
            | zero => simp [readObj]
            | succ m =>
              have e1 : readElems m (h1 ++ [PCell.cList es1]) es1 =
                  readElems m h1 es1 :=
                readElems_extend_of_closed (List.prefix_append _ _) hh1
                  hes1low
              simp only [readObj, List.getElem?_concat_length, hla, e1,
                heread m]

/-- Overwriting any cell with in-bounds references keeps the heap
closed. -/
theorem heapClosed_set {h : Heap} {b : Nat} {cell : PCell}
    (hh : heapClosed h) (hc : cellLow h.length cell) :
    heapClosed (h.set b cell) := by
  intro a c hac
  rw [List.length_set]
  by_cases hab : b = a
  · subst hab
    have hlt : b < h.length := by
      have := lookup_lt hac
      simpa [List.length_set] using this
    rw [List.getElem?_set_self hlt] at hac
    cases hac
    exact hc
  · rw [List.getElem?_set_ne hab] at hac
    exact hh a c hac

/-- **C10.** Whenever the replicated read paths fall back to the default
payload they return `copy.deepcopy(self.tdb_defaults)`: starting from a
closed heap `h` holding `tdb_defaults` (the object `defaults`), a
successful deepcopy (the fallback return) (1) leaves the value of
`tdb_defaults` unchanged, (2) returns a structure living entirely in
freshly allocated addresses (at or above the old heap top, referencing
only that fresh region) whose value equals `tdb_defaults`', and (3) after
mutating any cell of the returned structure, `tdb_defaults` still reads
as before and a later fallback call (a second deepcopy) still returns the
original default value. -/
theorem C10_fallback_fresh_deep_copy (h : Heap) (defaults : PObj)
    (n1 n2 : Nat) (h1 : Heap) (root1 : PObj) (b : Nat) (cell : PCell)
    (h3 : Heap) (root2 : PObj)
    (hclosed : heapClosed h)
    (hdc1 : deepcopyObj n1 h defaults = some (h1, root1))
    (hb : h.length ≤ b)
    (hcell : cellLow h1.length cell)
    (hdc2 : deepcopyObj n2 (h1.set b cell) defaults = some (h3, root2)) :
    (∀ m, readObj m h1 defaults = readObj m h defaults) ∧
    (objHigh h.length root1 ∧ regionHigh h.length h1) ∧
    (∀ m, readObj m h1 root1 = readObj m h defaults) ∧
    (∀ m, readObj m (h1.set b cell) defaults = readObj m h defaults) ∧
    (∀ m, readObj m h3 root2 = readObj m h defaults) := by
  have hlow : objLow h.length defaults := deepcopyObj_low_input hdc1
  have hext : h <+: h1 := deepcopyObj_extends n1 h defaults _ hdc1
  have hvac : regionHigh h.length h := fun a c hka hac =>
    absurd (lookup_lt hac) (Nat.not_lt.mpr hka)
  have hfresh := deepcopyObj_fresh n1 h defaults (h1, root1) h.length
    le_rfl hvac hdc1
  have hmut : ∀ m,
      readObj m (h1.set b cell) defaults = readObj m h defaults := by
    intro m
    obtain ⟨t, rfl⟩ := hext
    refine readObj_agree m ((h ++ t).set b cell) h h.length defaults
      ?_ ?_ hlow
    · intro a ha
      rw [List.getElem?_set_ne (by omega), lookup_append ha]
    · intro a c ha hac
      rw [List.getElem?_set_ne (by omega), lookup_append ha] at hac
      exact hclosed a c hac
  have hclosed1 : heapClosed h1 :=
    (deepcopyObj_closed n1 h defaults (h1, root1) hclosed hdc1).1
  refine ⟨?_, ⟨hfresh.2, hfresh.1⟩, ?_, hmut, ?_⟩
  · intro m
    exact readObj_extend_of_closed hext hclosed hlow
  · intro m
    exact deepcopyObj_read n1 h defaults (h1, root1) hclosed hdc1 m
  · intro m
    have hclosed2 : heapClosed (h1.set b cell) :=
      heapClosed_set hclosed1 hcell
    exact (deepcopyObj_read n2 (h1.set b cell) defaults (h3, root2)
      hclosed2 hdc2 m).trans (hmut m)

/-- Witness for C10: a two-cell defaults heap (a dict whose `vols` field
is a list); after copying and mutating the copied list cell, the original
`tdb_defaults` still reads as before. -/
theorem C10_fallback_fresh_deep_copy_witness :
    heapClosed [PCell.cList [], PCell.cDict [("vols", PObj.ref 0)]] ∧
    deepcopyObj 3 [PCell.cList [], PCell.cDict [("vols", PObj.ref 0)]]
      (PObj.ref 1) =
      some ([PCell.cList [], PCell.cDict [("vols", PObj.ref 0)],
             PCell.cList [], PCell.cDict [("vols", PObj.ref 2)]],
            PObj.ref 3) ∧
    readObj 5
      (([PCell.cList [], PCell.cDict [("vols", PObj.ref 0)],
         PCell.cList [], PCell.cDict [("vols", PObj.ref 2)]] : Heap).set 2
        (PCell.cList [PObj.atom PAtom.aNone]))
      (PObj.ref 1) =
      readObj 5 [PCell.cList [], PCell.cDict [("vols", PObj.ref 0)]]
        (PObj.ref 1) := by
  have hclosed :
      heapClosed [PCell.cList [], PCell.cDict [("vols", PObj.ref 0)]] := by
    intro a c hac
    have hlt : a < 2 := by simpa using lookup_lt hac
    interval_cases a
    · cases hac
      intro v hv
      cases hv
    · cases hac
      intro p hp
      rcases List.mem_singleton.mp hp with rfl
      show (0 : Nat) < 2
      omega
  have hdc1 : deepcopyObj 3
      [PCell.cList [], PCell.cDict [("vols", PObj.ref 0)]] (PObj.ref 1) =
      some ([PCell.cList [], PCell.cDict [("vols", PObj.ref 0)],
             PCell.cList [], PCell.cDict [("vols", PObj.ref 2)]],
            PObj.ref 3) := by
    simp [deepcopyObj, deepcopyFields, deepcopyElems]
  have hcell : cellLow
      ([PCell.cList [], PCell.cDict [("vols", PObj.ref 0)],
        PCell.cList [], PCell.cDict [("vols", PObj.ref 2)]] :
        Heap).length (PCell.cList [PObj.atom PAtom.aNone]) := by
    intro v hv
    rcases List.mem_singleton.mp hv with rfl
    trivial
  have hdc2 : deepcopyObj 3
      (([PCell.cList [], PCell.cDict [("vols", PObj.ref 0)],
         PCell.cList [], PCell.cDict [("vols", PObj.ref 2)]] : Heap).set 2
        (PCell.cList [PObj.atom PAtom.aNone])) (PObj.ref 1) =
      some ([PCell.cList [], PCell.cDict [("vols", PObj.ref 0)],
             PCell.cList [PObj.atom PAtom.aNone],
             PCell.cDict [("vols", PObj.ref 2)],
             PCell.cList [], PCell.cDict [("vols", PObj.ref 4)]],
            PObj.ref 5) := by
    simp [deepcopyObj, deepcopyFields, deepcopyElems, List.set]
  refine ⟨hclosed, hdc1, ?_⟩
  exact (C10_fallback_fresh_deep_copy
    [PCell.cList [], PCell.cDict [("vols", PObj.ref 0)]] (PObj.ref 1) 3 3
    [PCell.cList [], PCell.cDict [("vols", PObj.ref 0)],
     PCell.cList [], PCell.cDict [("vols", PObj.ref 2)]] (PObj.ref 3) 2
    (PCell.cList [PObj.atom PAtom.aNone])
    [PCell.cList [], PCell.cDict [("vols", PObj.ref 0)],
     PCell.cList [PObj.atom PAtom.aNone], PCell.cDict [("vols", PObj.ref 2)],
     PCell.cList [], PCell.cDict [("vols", PObj.ref 4)]] (PObj.ref 5)
    hclosed hdc1 (by simp) hcell hdc2).2.2.2.1 5

end Middleware
